import Mathlib

/-!
# csv_helper: an in-memory table with column mapping, projection and join

A shallow embedding of `helper.go` (package `csv`).

Modelling conventions.

* A Go slice of strings is a `List String`; a table is a `CSVHelper` record with the
  fields `Name`, `headers` and `records` of the Go struct (the `reader` field is only
  used while a file is read and carries no table data).
* A Go `map` is a `GoMap`: a finite list of entries with pairwise distinct keys, so that
  `len` is the number of keys; assignment replaces the entry of an existing key.
* Loops that write into the slice they range over (`MapColumns`, the header
  qualification of `Join`) are modelled as index loops on an explicit state that is read
  and written with `xs[i]?` and `List.set`, exactly as the Go code reads `v` and writes
  `xs[i]`.
* An index expression `record[i]` that is out of range is a run-time panic in Go;
  `Join` therefore returns an `Option`, `none` standing for the panic.
* In the first embedding cells are values. For `MapColumns`, `Select` and `clone`, which
  write to arrays of their own only, it gives the table a call returns. For `Join` it gives
  the headers, the number of rows, the length and the left part of every row, and the
  failure of a key-cell read; the cells appended to a matched row are those of the code as
  long as no in-place `append` of the same call has written into the right row.
* Which backing arrays the tables share, and what `append` writes into them, is described
  by the second embedding, `Tables in memory`.
* `MapFunc` is a total, side-effect free function on strings.
-/

namespace csv

/-! ## Go maps -/

/-- A Go map: the list of its entries, at most one entry per key. -/
structure GoMap (κ ν : Type) where
  entries : List (κ × ν)

namespace GoMap

variable {κ ν : Type}

/-- The map returned by `make(map[K]V)`. -/
def empty : GoMap κ ν := ⟨[]⟩

/-- Lookup in a list of entries. -/
def lookup [DecidableEq κ] (k : κ) : List (κ × ν) → Option ν
  | [] => none
  | (k1, v) :: rest => if k1 = k then some v else lookup k rest

/-- The two-valued lookup `v, ok := m[k]`. -/
def get? [DecidableEq κ] (m : GoMap κ ν) (k : κ) : Option ν :=
  lookup k m.entries

/-- The assignment `m[k] = v`: an existing entry for `k` is replaced. -/
def set [DecidableEq κ] (m : GoMap κ ν) (k : κ) (v : ν) : GoMap κ ν :=
  ⟨(k, v) :: m.entries.filter (fun p => !decide (p.1 = k))⟩

/-- The builtin `len(m)`. -/
def len (m : GoMap κ ν) : Nat := m.entries.length

end GoMap

/-! ## Slices -/

/-- The builtin `make([]string, n)`: `n` empty strings. -/
def make (n : Nat) : List String := List.replicate n ""

/-- The builtin `copy(dst, src)`: the first `min (len dst) (len src)` elements of `dst`
are overwritten with those of `src`. -/
def copy (dst src : List String) : List String :=
  src.take dst.length ++ dst.drop src.length

/-- The index expression `record[i]` for a Go `int` index; `none` is the run-time panic. -/
def index (record : List String) (i : Int) : Option String :=
  if i < 0 then none else record[i.toNat]?

/-! ## The table -/

/-- The struct `CSVHelper`. -/
structure CSVHelper where
  Name : String
  headers : List String
  records : List (List String)
deriving DecidableEq, Repr

/-- The struct `MapColumn`. -/
structure MapColumn where
  Src : String
  Dst : String
  MapFunc : String → String

/-- The function `newCSV`. -/
def newCSV (name : String) : CSVHelper :=
  { Name := name, headers := [], records := [] }

/-- The loop of `clone`: `for i, v := range c.records`, writing `c1.records[i]`. -/
def cloneRecords : Nat → List (List String) → List (List String) → List (List String)
  | _, [], out => out
  | i, v :: rest, out => cloneRecords (i + 1) rest (out.set i (copy (make v.length) v))

/-- The method `clone`. -/
def clone (c : CSVHelper) : CSVHelper :=
  let c1 := newCSV c.Name
  let c1 := { c1 with headers := copy (make c.headers.length) c.headers }
  let c1 := { c1 with records := List.replicate c.records.length [] }
  { c1 with records := cloneRecords 0 c.records c1.records }

/-! ## MapColumns -/

/-- The inner loop of the header pass of `MapColumns`: the first descriptor whose `Src`
is `v` renames header `i` and is recorded for position `i`; then `break`. -/
def mapHeaderInner (i : Nat) (v : String) :
    List MapColumn → List String × GoMap Nat MapColumn → List String × GoMap Nat MapColumn
  | [], s => s
  | column :: rest, s =>
    if v = column.Src then (s.1.set i column.Dst, s.2.set i column)
    else mapHeaderInner i v rest s

/-- The header pass of `MapColumns`: `for i, v := range c1.headers`, with `n` iterations
left, the next one at index `i`. -/
def mapHeaders (columns : List MapColumn) :
    Nat → Nat → List String × GoMap Nat MapColumn → List String × GoMap Nat MapColumn
  | 0, _, s => s
  | n + 1, i, s =>
    match s.1[i]? with
    | some v => mapHeaders columns n (i + 1) (mapHeaderInner i v columns s)
    | none => s

/-- The cell pass of `MapColumns` on one record: `for i, v := range record`. -/
def mapRecord (colIndexMap : GoMap Nat MapColumn) : Nat → Nat → List String → List String
  | 0, _, record => record
  | n + 1, i, record =>
    match record[i]? with
    | some v =>
      match colIndexMap.get? i with
      | some column => mapRecord colIndexMap n (i + 1) (record.set i (column.MapFunc v))
      | none => mapRecord colIndexMap n (i + 1) record
    | none => record

/-- The method `MapColumns`. -/
def MapColumns (c : CSVHelper) (columns : List MapColumn) : CSVHelper :=
  let c1 := clone c
  let s := mapHeaders columns c1.headers.length 0 (c1.headers, GoMap.empty)
  { c1 with
    headers := s.1
    records := c1.records.map (fun record => mapRecord s.2 record.length 0 record) }

/-! ## Join -/

/-- The loop `for _, v := range c.headers { headerMap[v] = true }`. -/
def buildHeaderMap : List String → GoMap String Bool → GoMap String Bool
  | [], m => m
  | v :: rest, m => buildHeaderMap rest (m.set v true)

/-- The expression `headerMap[v]` on a `map[string]bool`: `false` for an absent key. -/
def headerMapAt (headerMap : GoMap String Bool) (v : String) : Bool :=
  (headerMap.get? v).getD false

/-- The search loops of `Join`: the index of the first header equal to `column`,
`-1` when there is none. -/
def findIndex (column : String) : Nat → List String → Int
  | _, [] => -1
  | i, v :: rest => if v = column then (i : Int) else findIndex column (i + 1) rest

/-- The qualification loop of `Join`: `for i, v := range rightHeader`, writing
`rightHeader[i]`. -/
def qualifyHeaders (rightName : String) (headerMap : GoMap String Bool) :
    Nat → Nat → List String → List String
  | 0, _, rightHeader => rightHeader
  | n + 1, i, rightHeader =>
    match rightHeader[i]? with
    | some v =>
      if headerMapAt headerMap v then
        qualifyHeaders rightName headerMap n (i + 1) (rightHeader.set i (rightName ++ "." ++ v))
      else qualifyHeaders rightName headerMap n (i + 1) rightHeader
    | none => rightHeader

/-- The loop `for _, record := range right.records`, filling `rightRecordsMap`. In this
embedding the map holds the cells of the row as they are when the row is entered; the map
of the code holds the row's slice header, see `buildRecordsMapMem`. -/
def buildRecordsMap (rightIndex : Int) :
    List (List String) → GoMap String (List String) → Option (GoMap String (List String))
  | [], m => some m
  | record :: rest, m =>
    match index record rightIndex with
    | some key => buildRecordsMap rightIndex rest (m.set key record)
    | none => none

/-- The loop `for _, record := range c.records` of `Join`, appending to `c1.records`. The
inner `append(record, rightRecords...)` is the concatenation of the cells; that it writes
into the array of `record` when the capacity allows is described by `joinRecordsMem`. -/
def joinRecords (leftIndex : Int) (rightRecordsMap : GoMap String (List String)) :
    List (List String) → List (List String) → Option (List (List String))
  | [], out => some out
  | record :: rest, out =>
    match index record leftIndex with
    | some key =>
      match rightRecordsMap.get? key with
      | some rightRecords =>
        joinRecords leftIndex rightRecordsMap rest (out ++ [record ++ rightRecords])
      | none => joinRecords leftIndex rightRecordsMap rest (out ++ [record])
    | none => none

/-- The method `Join` on table values. It gives the headers, the number of rows, the length
of every row, the left row every output row begins with, and whether a key-cell read is out
of range (`none`). The cells behind the left row of a matched output row are those of the
right row as the map received them: that is what the code appends as long as no earlier
in-place `append` of the same call has written into that right row, which `JoinMem`
describes. -/
def Join (c right : CSVHelper) (leftColumn rightColumn : String) : Option CSVHelper :=
  let c1 := newCSV (c.Name ++ "." ++ right.Name)
  let headerMap := buildHeaderMap c.headers GoMap.empty
  let rightHeader := copy (make right.headers.length) right.headers
  let rightIndex := findIndex rightColumn 0 rightHeader
  let leftIndex := findIndex leftColumn 0 c.headers
  if rightIndex = -1 ∨ leftIndex = -1 then some c
  else
    let rightHeader := qualifyHeaders right.Name headerMap rightHeader.length 0 rightHeader
    let c1 := { c1 with headers := c.headers ++ rightHeader }
    match buildRecordsMap rightIndex right.records GoMap.empty with
    | none => none
    | some rightRecordsMap =>
      match joinRecords leftIndex rightRecordsMap c.records c1.records with
      | none => none
      | some records => some { c1 with records := records }

/-! ## Select -/

/-- The inner loop of the header pass of `Select`: the first field equal to `header`
marks position `index` and appends the header; then `break`. -/
def selectInner (index : Nat) (header : String) :
    List String → GoMap Nat Bool × List String → GoMap Nat Bool × List String
  | [], s => s
  | field :: rest, s =>
    if header = field then (s.1.set index true, s.2 ++ [header])
    else selectInner index header rest s

/-- The header pass of `Select`: `for index, header := range c.headers`. -/
def selectHeaders (fields : List String) :
    Nat → List String → GoMap Nat Bool × List String → GoMap Nat Bool × List String
  | _, [], s => s
  | index, header :: rest, s =>
    selectHeaders fields (index + 1) rest (selectInner index header fields s)

/-- The cell pass of `Select` on one record: `for i, v := range record`. -/
def selectRecord (fieldIndexMap : GoMap Nat Bool) : Nat → List String → List String → List String
  | _, [], newRecord => newRecord
  | i, v :: rest, newRecord =>
    if (fieldIndexMap.get? i).isSome then selectRecord fieldIndexMap (i + 1) rest (newRecord ++ [v])
    else selectRecord fieldIndexMap (i + 1) rest newRecord

/-- The loop `for _, record := range c.records` of `Select`. -/
def selectRecords (fieldIndexMap : GoMap Nat Bool) :
    List (List String) → List (List String) → List (List String)
  | [], out => out
  | record :: rest, out =>
    selectRecords fieldIndexMap rest (out ++ [selectRecord fieldIndexMap 0 record []])

/-- The method `Select`. -/
def Select (c : CSVHelper) (fields : List String) : CSVHelper :=
  let c1 := newCSV c.Name
  let s := selectHeaders fields 0 c.headers (GoMap.empty, c1.headers)
  let c1 := { c1 with headers := s.2 }
  if s.1.len = 0 then c1
  else { c1 with records := selectRecords s.1 c.records c1.records }

/-! ## Reading and writing records -/

/-- The error values: `errEmptyRecords` of the package, and what `ReadAll` of
`encoding/csv` can return, `errFieldCount` (`csv.ErrFieldCount`, "wrong number of fields")
and `readError` for every other failure of the reader. -/
inductive Error where
  | errEmptyRecords
  | errFieldCount
  | readError
deriving DecidableEq, Repr

/-- The method `init`, `readAll` being what `c.reader.ReadAll()` returns: an error of the
reader is returned as it is, fewer than two records are rejected, the first record becomes
the headers, the others the rows. -/
def init (c : CSVHelper) (readAll : Except Error (List (List String))) :
    Except Error CSVHelper :=
  match readAll with
  | Except.error err => Except.error err
  | Except.ok all =>
    if all.length < 2 then Except.error Error.errEmptyRecords
    else
      match all with
      | [] => Except.error Error.errEmptyRecords
      | first :: others => Except.ok { c with headers := first, records := others }

/-- The function `NewCSVHelper`, on what the reader of the opened file returns. -/
def NewCSVHelper (name : String) (readAll : Except Error (List (List String))) :
    Except Error CSVHelper :=
  init (newCSV name) readAll

/-- The method `ToOutput`, as the sequence of records handed to the writer: `w.Write` of
the headers, then `w.WriteAll` of the rows. -/
def ToOutput (c : CSVHelper) : List (List String) :=
  let w : List (List String) := []
  let w := w ++ [c.headers]
  w ++ c.records

/-! ## The file read back

What `ReadAll` of a `csv.Reader` with the default settings of `csv.NewReader` returns for
the file that a `csv.Writer` wrote, record by record. Modelled on `encoding/csv`:

* the writer writes a record without fields, and a record of one empty field, as an empty
  line, and the reader skips empty lines;
* the writer quotes a field with a line end in it, and the reader turns a line end `\r\n`
  inside a quoted field into `\n`; every other field is read as it was written;
* the reader takes the number of fields of the first record it reads (`FieldsPerRecord`
  is 0) and returns `ErrFieldCount` at the first record with another number of fields. -/

/-- The carriage return character. -/
def carriageReturn : Char := Char.ofNat 13

/-- The line feed character. -/
def lineFeed : Char := Char.ofNat 10

/-- Whether a carriage return directly followed by a line feed occurs. -/
def hasCRLF : List Char → Bool
  | [] => false
  | ch :: rest =>
    (decide (ch = carriageReturn) && decide (rest.head? = some lineFeed)) || hasCRLF rest

/-- The characters of a field as the reader returns them: a carriage return directly
followed by a line feed is dropped. -/
def normalizeLineEnds : List Char → List Char
  | [] => []
  | ch :: rest =>
    if ch = carriageReturn ∧ rest.head? = some lineFeed then normalizeLineEnds rest
    else ch :: normalizeLineEnds rest

/-- The field the reader returns for a written field. -/
def readField (field : String) : String :=
  String.mk (normalizeLineEnds field.data)

/-- Whether the writer writes the record as an empty line. -/
def writtenAsEmptyLine (record : List String) : Bool :=
  decide (record = []) || decide (record = [""])

/-- The field-count check of the reader, `n` being the number of fields of the first
record. -/
def checkFieldCount (n : Nat) : List (List String) → Except Error (List (List String))
  | [] => Except.ok []
  | record :: rest =>
    if record.length = n then
      match checkFieldCount n rest with
      | Except.ok records => Except.ok (record :: records)
      | Except.error err => Except.error err
    else Except.error Error.errFieldCount

/-- What `ReadAll` returns for the file written for the records `written`. -/
def readWritten (written : List (List String)) : Except Error (List (List String)) :=
  match (written.filter (fun record => !writtenAsEmptyLine record)).map
      (fun record => record.map readField) with
  | [] => Except.ok []
  | first :: rest => checkFieldCount first.length (first :: rest)

/-! ## Tables in memory

The second embedding keeps what the first one abstracts from: which backing array a slice
points to and how much spare capacity it has. A table in memory is a `CSVHelperMem`; the
cells live in a `Heap`; `view` reads a table back as a `CSVHelper` value.

The outer slice `records` is kept as the sequence of its row slice headers: every transform
builds the outer slice of its result itself (from `nil` by `append`, or by `make` in
`clone`) and none writes into the outer array of a table it was given.

The capacity of the array that `append` allocates when it must grow is not fixed by the
language; the operations take it as the parameter `grow` (old capacity, needed length). -/

/-- A slice header: the address of the backing array, the length and the capacity. -/
structure Slice where
  ptr : Nat
  len : Nat
  cap : Nat
deriving DecidableEq, Repr

/-- The `nil` slice, and the slice of a zero-size allocation such as `make([]string, 0)`:
no cell, no capacity, at the zero-size base address `0`. -/
def Slice.nil : Slice := { ptr := 0, len := 0, cap := 0 }

/-- The memory: the backing arrays by address, each with one cell per unit of capacity. -/
structure Heap where
  arrays : List (List String)
deriving DecidableEq, Repr

namespace Heap

/-- The memory before any allocation: only the zero-size base at address `0`. -/
def empty : Heap := { arrays := [[]] }

/-- The cells `s[0], ..., s[len(s)-1]` of a slice. -/
def read (h : Heap) (s : Slice) : List String :=
  (h.arrays.getD s.ptr []).take s.len

/-- Writing the cells `xs` into the array at `ptr`, from offset `off` on. -/
def store (h : Heap) (ptr off : Nat) (xs : List String) : Heap :=
  let a := h.arrays.getD ptr []
  { arrays := h.arrays.set ptr (a.take off ++ xs ++ a.drop (off + xs.length)) }

/-- Allocation of a new array holding `cells`, without spare capacity; a zero-size
allocation returns the zero-size base. -/
def alloc (h : Heap) (cells : List String) : Heap × Slice :=
  if cells.length = 0 then (h, Slice.nil)
  else ({ arrays := h.arrays ++ [cells] },
        { ptr := h.arrays.length, len := cells.length, cap := cells.length })

end Heap

/-- The builtin `make([]string, n)` in memory. -/
def makeSlice (h : Heap) (n : Nat) : Heap × Slice :=
  h.alloc (List.replicate n "")

/-- The builtin `copy(dst, src)` in memory. -/
def copySlice (h : Heap) (dst src : Slice) : Heap :=
  h.store dst.ptr 0 ((h.read src).take dst.len)

/-- The builtin `append(s, xs...)` in memory: within the capacity the cells are written
behind the length into the array of `s`, which every slice on that array sees; otherwise the
cells of `s` and `xs` move to a new array of capacity `grow (cap s) (len s + len xs)`. -/
def appendSlice (grow : Nat → Nat → Nat) (h : Heap) (s : Slice) (xs : List String) :
    Heap × Slice :=
  if s.len + xs.length ≤ s.cap then
    (h.store s.ptr s.len xs, { s with len := s.len + xs.length })
  else
    let cells := h.read s ++ xs
    let newcap := max (grow s.cap cells.length) cells.length
    ({ arrays := h.arrays ++ [cells ++ List.replicate (newcap - cells.length) ""] },
     { ptr := h.arrays.length, len := cells.length, cap := newcap })

/-- The struct `CSVHelper` in memory. -/
structure CSVHelperMem where
  Name : String
  headers : Slice
  records : List Slice
deriving DecidableEq, Repr

/-- The table value that a table in memory holds. -/
def view (h : Heap) (t : CSVHelperMem) : CSVHelper :=
  { Name := t.Name, headers := h.read t.headers, records := t.records.map h.read }

/-- The records as `ReadAll` of `encoding/csv` returns them: every record in an array of
its own, made with `make([]string, n)` for its `n` fields. -/
def allocRecords : List (List String) → Heap × List Slice → Heap × List Slice
  | [], st => st
  | record :: rest, st =>
    let r := st.1.alloc record
    allocRecords rest (r.1, st.2 ++ [r.2])

/-- The method `init` in memory. -/
def initMem (h : Heap) (name : String) (all : List (List String)) :
    Except Error (Heap × CSVHelperMem) :=
  if all.length < 2 then Except.error Error.errEmptyRecords
  else
    match allocRecords all (h, []) with
    | (h1, first :: others) =>
      Except.ok (h1, { Name := name, headers := first, records := others })
    | (_, []) => Except.error Error.errEmptyRecords

/-- The loop of `clone` in memory: a new array for every row, filled by `copy`. -/
def cloneRecordsMem : List Slice → Heap × List Slice → Heap × List Slice
  | [], st => st
  | v :: rest, st =>
    let r := makeSlice st.1 v.len
    cloneRecordsMem rest (copySlice r.1 r.2 v, st.2 ++ [r.2])

/-- The method `clone` in memory. -/
def cloneMem (h : Heap) (c : CSVHelperMem) : Heap × CSVHelperMem :=
  let r := makeSlice h c.headers.len
  let h1 := copySlice r.1 r.2 c.headers
  let rows := cloneRecordsMem c.records (h1, [])
  (rows.1, { Name := c.Name, headers := r.2, records := rows.2 })

/-- The inner loop of the header pass of `MapColumns` in memory, writing `c1.headers[i]`. -/
def mapHeaderInnerMem (headers : Slice) (i : Nat) (v : String) :
    List MapColumn → Heap × GoMap Nat MapColumn → Heap × GoMap Nat MapColumn
  | [], st => st
  | column :: rest, st =>
    if v = column.Src then (st.1.store headers.ptr i [column.Dst], st.2.set i column)
    else mapHeaderInnerMem headers i v rest st

/-- The header pass of `MapColumns` in memory. -/
def mapHeadersMem (columns : List MapColumn) (headers : Slice) :
    Nat → Nat → Heap × GoMap Nat MapColumn → Heap × GoMap Nat MapColumn
  | 0, _, st => st
  | n + 1, i, st =>
    match (st.1.read headers)[i]? with
    | some v => mapHeadersMem columns headers n (i + 1) (mapHeaderInnerMem headers i v columns st)
    | none => st

/-- The cell pass of `MapColumns` in memory on one record, writing `record[i]`. -/
def mapRecordMem (colIndexMap : GoMap Nat MapColumn) (record : Slice) : Nat → Nat → Heap → Heap
  | 0, _, h => h
  | n + 1, i, h =>
    match (h.read record)[i]? with
    | some v =>
      match colIndexMap.get? i with
      | some column =>
        mapRecordMem colIndexMap record n (i + 1) (h.store record.ptr i [column.MapFunc v])
      | none => mapRecordMem colIndexMap record n (i + 1) h
    | none => h

/-- The loop `for _, record := range c1.records` of `MapColumns` in memory. -/
def mapRecordsMem (colIndexMap : GoMap Nat MapColumn) : List Slice → Heap → Heap
  | [], h => h
  | record :: rest, h =>
    mapRecordsMem colIndexMap rest (mapRecordMem colIndexMap record record.len 0 h)

/-- The method `MapColumns` in memory. -/
def MapColumnsMem (h : Heap) (c : CSVHelperMem) (columns : List MapColumn) :
    Heap × CSVHelperMem :=
  let c1 := cloneMem h c
  let st := mapHeadersMem columns c1.2.headers c1.2.headers.len 0 (c1.1, GoMap.empty)
  (mapRecordsMem st.2 c1.2.records st.1, c1.2)

/-- The inner loop of the header pass of `Select` in memory, appending to `c1.headers`. -/
def selectInnerMem (grow : Nat → Nat → Nat) (index : Nat) (header : String) :
    List String → Heap × GoMap Nat Bool × Slice → Heap × GoMap Nat Bool × Slice
  | [], st => st
  | field :: rest, st =>
    if header = field then
      let r := appendSlice grow st.1 st.2.2 [header]
      (r.1, st.2.1.set index true, r.2)
    else selectInnerMem grow index header rest st

/-- The header pass of `Select` in memory. -/
def selectHeadersMem (grow : Nat → Nat → Nat) (fields : List String) (headers : Slice) :
    Nat → Nat → Heap × GoMap Nat Bool × Slice → Heap × GoMap Nat Bool × Slice
  | 0, _, st => st
  | n + 1, index, st =>
    match (st.1.read headers)[index]? with
    | some header =>
      selectHeadersMem grow fields headers n (index + 1)
        (selectInnerMem grow index header fields st)
    | none => st

/-- The cell pass of `Select` in memory on one record, appending to `newRecord`. -/
def selectRecordMem (grow : Nat → Nat → Nat) (fieldIndexMap : GoMap Nat Bool) (record : Slice) :
    Nat → Nat → Heap × Slice → Heap × Slice
  | 0, _, st => st
  | n + 1, i, st =>
    match (st.1.read record)[i]? with
    | some v =>
      if (fieldIndexMap.get? i).isSome then
        selectRecordMem grow fieldIndexMap record n (i + 1) (appendSlice grow st.1 st.2 [v])
      else selectRecordMem grow fieldIndexMap record n (i + 1) st
    | none => st

/-- The loop `for _, record := range c.records` of `Select` in memory; `newRecord` starts
as `make([]string, 0)`. -/
def selectRecordsMem (grow : Nat → Nat → Nat) (fieldIndexMap : GoMap Nat Bool) :
    List Slice → Heap × List Slice → Heap × List Slice
  | [], st => st
  | record :: rest, st =>
    let r := selectRecordMem grow fieldIndexMap record record.len 0 (st.1, Slice.nil)
    selectRecordsMem grow fieldIndexMap rest (r.1, st.2 ++ [r.2])

/-- The method `Select` in memory. -/
def SelectMem (grow : Nat → Nat → Nat) (h : Heap) (c : CSVHelperMem) (fields : List String) :
    Heap × CSVHelperMem :=
  let st := selectHeadersMem grow fields c.headers c.headers.len 0 (h, GoMap.empty, Slice.nil)
  if st.2.1.len = 0 then (st.1, { Name := c.Name, headers := st.2.2, records := [] })
  else
    let rows := selectRecordsMem grow st.2.1 c.records (st.1, [])
    (rows.1, { Name := c.Name, headers := st.2.2, records := rows.2 })

/-- The loop filling `rightRecordsMap` in memory: the map holds the row slice headers. -/
def buildRecordsMapMem (h : Heap) (rightIndex : Int) :
    List Slice → GoMap String Slice → Option (GoMap String Slice)
  | [], m => some m
  | record :: rest, m =>
    match index (h.read record) rightIndex with
    | some key => buildRecordsMapMem h rightIndex rest (m.set key record)
    | none => none

/-- The loop `for _, record := range c.records` of `Join` in memory: a matched row is
`append(record, rightRecords...)` on the left row's own slice, an unmatched row is the left
row's slice itself. -/
def joinRecordsMem (grow : Nat → Nat → Nat) (leftIndex : Int)
    (rightRecordsMap : GoMap String Slice) :
    List Slice → Heap × List Slice → Option (Heap × List Slice)
  | [], st => some st
  | record :: rest, st =>
    match index (st.1.read record) leftIndex with
    | some key =>
      match rightRecordsMap.get? key with
      | some rightRecords =>
        let r := appendSlice grow st.1 record (st.1.read rightRecords)
        joinRecordsMem grow leftIndex rightRecordsMap rest (r.1, st.2 ++ [r.2])
      | none => joinRecordsMem grow leftIndex rightRecordsMap rest (st.1, st.2 ++ [record])
    | none => none

/-- The method `Join` in memory. The local slice `rightHeader` is a new array; its
qualification loop is the loop `qualifyHeaders` on its cells, written back to it. When a key
column is not found the receiver itself is returned. -/
def JoinMem (grow : Nat → Nat → Nat) (h : Heap) (c right : CSVHelperMem)
    (leftColumn rightColumn : String) : Option (Heap × CSVHelperMem) :=
  let headerMap := buildHeaderMap (h.read c.headers) GoMap.empty
  let r := makeSlice h right.headers.len
  let rightHeader := r.2
  let h1 := copySlice r.1 rightHeader right.headers
  let rightIndex := findIndex rightColumn 0 (h1.read rightHeader)
  let leftIndex := findIndex leftColumn 0 (h1.read c.headers)
  if rightIndex = -1 ∨ leftIndex = -1 then some (h1, c)
  else
    let h2 := h1.store rightHeader.ptr 0
      (qualifyHeaders right.Name headerMap rightHeader.len 0 (h1.read rightHeader))
    let hs := appendSlice grow h2 c.headers (h2.read rightHeader)
    match buildRecordsMapMem hs.1 rightIndex right.records GoMap.empty with
    | none => none
    | some rightRecordsMap =>
      match joinRecordsMem grow leftIndex rightRecordsMap c.records (hs.1, []) with
      | none => none
      | some rows =>
        some (rows.1, { Name := c.Name ++ "." ++ right.Name, headers := hs.2, records := rows.2 })

/-! ## The growth of `append` in the gc runtime -/

/-- The size classes of the gc allocator in bytes (`runtime/sizeclasses.go`), from the
smallest, 8, to the largest, 32768. -/
def sizeClasses : List Nat :=
  [8, 16, 24, 32, 48, 64, 80, 96, 112, 128, 144, 160, 176, 192, 208, 224, 240, 256, 288, 320,
   352, 384, 416, 448, 480, 512, 576, 640, 704, 768, 896, 1024, 1152, 1280, 1408, 1536, 1792,
   2048, 2304, 2688, 3072, 3200, 3456, 4096, 4864, 5120, 5376, 6144, 6528, 6784, 6912, 8192,
   9472, 9728, 10240, 10880, 12288, 13568, 14336, 16384, 18432, 19072, 20480, 21760, 24576,
   27264, 28672, 32768]

/-- The loop of `nextslicecap` for old capacities from 256 on: the capacity grows by a
quarter of itself plus 192 until it reaches the needed length; `fuel` bounds the number of
rounds. -/
def nextslicecapLoop (newLen : Nat) : Nat → Nat → Nat
  | 0, newcap => newcap
  | fuel + 1, newcap =>
    if newLen ≤ newcap + (newcap + 3 * 256) / 4 then newcap + (newcap + 3 * 256) / 4
    else nextslicecapLoop newLen fuel (newcap + (newcap + 3 * 256) / 4)

/-- The function `nextslicecap` of `runtime/slice.go`: the needed length when that is more
than double the old capacity, double the old capacity below the threshold of 256, and the
result of the loop from the threshold on. -/
def nextslicecap (newLen oldCap : Nat) : Nat :=
  if newLen > oldCap + oldCap then newLen
  else if oldCap < 256 then oldCap + oldCap
  else nextslicecapLoop newLen newLen oldCap

/-- The function `roundupsize` of the runtime for a block with pointers. A small block
(with its header at most 32768 bytes) takes the smallest size class that holds `size` bytes
and, when the block is over 512 bytes, the allocation header of `mallocHeader` bytes, which
is given back from the result; a large block is rounded up to whole pages of 8192 bytes.
The allocation header `mallocHeader` is 0 bytes before Go 1.22 and 8 bytes from Go 1.22
on. -/
def roundupsize (mallocHeader size : Nat) : Nat :=
  if size + mallocHeader ≤ 32768 then
    let extra := if size > 512 then mallocHeader else 0
    match sizeClasses.find? (fun k => decide (size + extra ≤ k)) with
    | some k => k - extra
    | none => size
  else (size + 8191) / 8192 * 8192

/-- The capacity that `append` gives a new array of strings (16 bytes each, 64-bit
platform) in the gc runtime: `growslice` takes `nextslicecap` and rounds the block up with
`roundupsize`. -/
def growCap (mallocHeader oldCap newLen : Nat) : Nat :=
  roundupsize mallocHeader (nextslicecap newLen oldCap * 16) / 16

/-! ## Vocabulary of the statements -/

/-- The first descriptor, in descriptor order, whose `Src` is the header `v`. -/
def firstDescriptor (columns : List MapColumn) (v : String) : Option MapColumn :=
  columns.find? (fun column => decide (v = column.Src))

/-- The header that column mapping leaves at a position whose original header is `v`. -/
def renameHeader (columns : List MapColumn) (v : String) : String :=
  match firstDescriptor columns v with
  | some column => column.Dst
  | none => v

/-- The cell that column mapping leaves at position `i` of a record, the original cell
being `v`, for a table whose original headers are `headers`. -/
def mapCell (headers : List String) (columns : List MapColumn) (i : Nat) (v : String) : String :=
  match headers[i]? with
  | some h =>
    match firstDescriptor columns h with
    | some column => column.MapFunc v
    | none => v
  | none => v

/-- Whether the header found at a position, if any, occurs in the field list. -/
def headerMatches (fields : List String) : Option String → Bool
  | some h => decide (h ∈ fields)
  | none => false

/-- The positions of the headers that occur in the field list, in ascending order. -/
def matchedPositions (headers fields : List String) : List Nat :=
  (List.range headers.length).filter (fun j => headerMatches fields headers[j]?)

/-- The cells of a record at the given positions, in the order of the positions;
a position the record does not have contributes no cell. -/
def cellsAt (positions : List Nat) (record : List String) : List String :=
  positions.filterMap (fun j => record[j]?)

/-- The cells of a record that stand under a header occurring in the field list. -/
def selectCells (headers fields record : List String) : List String :=
  ((headers.zip record).filter (fun p => decide (p.1 ∈ fields))).map Prod.snd

/-- The header that `Join` writes for the right header `h`: qualified with the name of
the right table exactly when `h` is one of the left headers. -/
def qualifyHeader (leftHeaders : List String) (rightName : String) (h : String) : String :=
  if h ∈ leftHeaders then rightName ++ "." ++ h else h

/-- The last row, in row order, whose cell at `rightIndex` is `key`. -/
def lastMatch (rows : List (List String)) (rightIndex : Nat) (key : String) :
    Option (List String) :=
  (rows.filter (fun r => decide (r[rightIndex]? = some key))).getLast?

/-- The output row of a join for the left row `record`: the row followed by the cells of
the last right row with the same key, or the row alone when no right row has its key. -/
def joinRow (rightRows : List (List String)) (leftIndex rightIndex : Nat)
    (record : List String) : List String :=
  match record[leftIndex]? with
  | some key =>
    match lastMatch rightRows rightIndex key with
    | some rightRecords => record ++ rightRecords
    | none => record
  | none => record

/-- The table invariant of the data model: every row has one cell per header. -/
def RowsAligned (t : CSVHelper) : Prop :=
  ∀ r ∈ t.records, r.length = t.headers.length

/-! ## Tables of the worked scenarios -/

/-- The left table of the join scenario. -/
def scenarioLeft : CSVHelper :=
  { Name := "L", headers := ["id", "name"], records := [["1", "a"], ["2", "b"]] }

/-- The right table of the join scenario. -/
def scenarioRight : CSVHelper :=
  { Name := "R", headers := ["id", "score"], records := [["1", "10"]] }

/-- The table of the projection scenario. -/
def scenarioTable : CSVHelper :=
  { Name := "T", headers := ["a", "b", "c"], records := [["1", "2", "3"]] }

/-- Three descriptors for the projection scenario table: two have the source `a`, and the
destination of the first is the source of the second. -/
def scenarioColumns : List MapColumn :=
  [{ Src := "a", Dst := "b", MapFunc := fun v => v ++ "!" },
   { Src := "b", Dst := "x", MapFunc := fun v => v ++ "?" },
   { Src := "a", Dst := "z", MapFunc := fun v => v ++ "#" }]

/-! ## Freshness of storage -/

/-- A slice that holds no cell of the arrays below address `n0`: it is empty without
capacity, or its array has an address from `n0` on. -/
def FreshFrom (n0 : Nat) (s : Slice) : Prop :=
  (s.len = 0 ∧ s.cap = 0) ∨ n0 ≤ s.ptr

/-- The arrays below address `n0` are the same in `h1` as in `h`, cell by cell over their
whole capacity, and `h1` has at least `n0` arrays. -/
def SameBelow (n0 : Nat) (h h1 : Heap) : Prop :=
  n0 ≤ h1.arrays.length ∧ ∀ a : Nat, a < n0 → h1.arrays[a]? = h.arrays[a]?

/-- A table all of whose slices lie in the arrays below address `n0`. -/
def HeldBelow (n0 : Nat) (t : CSVHelperMem) : Prop :=
  t.headers.ptr < n0 ∧ ∀ s ∈ t.records, s.ptr < n0

/-! ## Scenarios in memory -/

/-- One call of `Join` in a history of calls: the memory before and after the call, the
receiver, the right-hand argument and the returned table. -/
structure JoinTrace where
  before : Heap
  after : Heap
  receiver : CSVHelperMem
  right : CSVHelperMem
  result : CSVHelperMem

/-- Two joins from one left table built by `Select`. The table `T` (headers `a, b, c, d`,
row `1, 2, 3, 4`) and the one-column tables `R1` (header `x`, row `1`) and `R2` (header `y`,
row `2`) are read from files; `S := T.Select([a, b, c])`, `J1 := S.Join(R1, "a", "x")` and
then `J2 := S.Join(R2, "b", "y")`. The trace is that of the second join, with `J1` in the
place of the right-hand argument: the table the caller already holds. -/
def twoJoinsTrace (mallocHeader : Nat) : Option JoinTrace :=
  match initMem Heap.empty "T" [["a", "b", "c", "d"], ["1", "2", "3", "4"]] with
  | Except.error _ => none
  | Except.ok (h0, T) =>
    match initMem h0 "R1" [["x"], ["1"]] with
    | Except.error _ => none
    | Except.ok (h1, R1) =>
      match initMem h1 "R2" [["y"], ["2"]] with
      | Except.error _ => none
      | Except.ok (h2, R2) =>
        let S := SelectMem (growCap mallocHeader) h2 T ["a", "b", "c"]
        match JoinMem (growCap mallocHeader) S.1 S.2 R1 "a" "x" with
        | none => none
        | some (h4, J1) =>
          match JoinMem (growCap mallocHeader) h4 S.2 R2 "b" "y" with
          | none => none
          | some (h5, J2) =>
            some { before := h4, after := h5, receiver := S.2, right := J1, result := J2 }

/-- A join whose key column is not found, and a join in which no key matches, both on the
join scenario read from files: `L.Join(R, "k", "x")` and `L.Join(R, "name", "id")`. The
pair holds the returned table of each with the receiver `L`. -/
def sharedRowsTrace (mallocHeader : Nat) :
    Option (CSVHelperMem × CSVHelperMem × CSVHelperMem) :=
  match initMem Heap.empty "L" [["id", "name"], ["1", "a"], ["2", "b"]] with
  | Except.error _ => none
  | Except.ok (h0, L) =>
    match initMem h0 "R" [["id", "score"], ["1", "10"]] with
    | Except.error _ => none
    | Except.ok (h1, R) =>
      match JoinMem (growCap mallocHeader) h1 L R "k" "x" with
      | none => none
      | some (h2, D) =>
        match JoinMem (growCap mallocHeader) h2 L R "name" "id" with
        | none => none
        | some (_, U) => some (L, D, U)

/-- The records of a file with 25 columns and one data row. -/
def wideRecords : List (List String) :=
  [["a", "b", "c", "d", "e", "f", "g", "h", "i", "j", "k", "l", "m", "n", "o", "p", "q", "r",
    "s", "t", "u", "v", "w", "x", "y"],
   ["1", "2", "3", "4", "5", "6", "7", "8", "9", "10", "11", "12", "13", "14", "15", "16",
    "17", "18", "19", "20", "21", "22", "23", "24", "25"]]

/-- A join whose right-hand argument was itself joined from the receiver. The 25-column
table `X` and the one-column tables `P` (header `z`, row `1`) and `Q` (header `zz`, row
`2`) are read from files; `J := X.Join(P, "a", "z")`, `J2 := J.Join(Q, "b", "zz")`, and the
traced call is `J.Join(J2, "a", "a")`. -/
def wideTrace (mallocHeader : Nat) : Option JoinTrace :=
  match initMem Heap.empty "X" wideRecords with
  | Except.error _ => none
  | Except.ok (h0, X) =>
    match initMem h0 "P" [["z"], ["1"]] with
    | Except.error _ => none
    | Except.ok (h1, P) =>
      match initMem h1 "Q" [["zz"], ["2"]] with
      | Except.error _ => none
      | Except.ok (h2, Q) =>
        match JoinMem (growCap mallocHeader) h2 X P "a" "z" with
        | none => none
        | some (h3, J) =>
          match JoinMem (growCap mallocHeader) h3 J Q "b" "zz" with
          | none => none
          | some (h4, J2) =>
            match JoinMem (growCap mallocHeader) h4 J J2 "a" "a" with
            | none => none
            | some (h5, J3) =>
              some { before := h4, after := h5, receiver := J, right := J2, result := J3 }

/-- The records of a file with 25 columns and two data rows that agree in column `a` and
in column `c` and differ in column `b`. -/
def wideRecordsTwoRows : List (List String) :=
  [["a", "b", "c", "d", "e", "f", "g", "h", "i", "j", "k", "l", "m", "n", "o", "p", "q", "r",
    "s", "t", "u", "v", "w", "x", "y"],
   ["1", "1", "Q1", "4", "5", "6", "7", "8", "9", "10", "11", "12", "13", "14", "15", "16",
    "17", "18", "19", "20", "21", "22", "23", "24", "25"],
   ["1", "2", "Q1", "4", "5", "6", "7", "8", "9", "10", "11", "12", "13", "14", "15", "16",
    "17", "18", "19", "20", "21", "22", "23", "24", "25"]]

/-- A join in which two left rows have the key of one right row that lies in the array of
the first of them. The table `X` of `wideRecordsTwoRows` and the one-column tables `P`
(header `z`, row `1`) and `Q` (header `zz`, row `Q1`) are read from files;
`J := X.Join(P, "a", "z")`, `J2 := J.Join(Q, "c", "zz")`, and the traced call is
`J.Join(J2, "a", "b")`: both rows of `J` have the key `1`, which is the `b` cell of the
first row of `J2` only. -/
def repeatedKeyTrace (mallocHeader : Nat) : Option JoinTrace :=
  match initMem Heap.empty "X" wideRecordsTwoRows with
  | Except.error _ => none
  | Except.ok (h0, X) =>
    match initMem h0 "P" [["z"], ["1"]] with
    | Except.error _ => none
    | Except.ok (h1, P) =>
      match initMem h1 "Q" [["zz"], ["Q1"]] with
      | Except.error _ => none
      | Except.ok (h2, Q) =>
        match JoinMem (growCap mallocHeader) h2 X P "a" "z" with
        | none => none
        | some (h3, J) =>
          match JoinMem (growCap mallocHeader) h3 J Q "c" "zz" with
          | none => none
          | some (h4, J2) =>
            match JoinMem (growCap mallocHeader) h4 J J2 "a" "b" with
            | none => none
            | some (h5, J3) =>
              some { before := h4, after := h5, receiver := J, right := J2, result := J3 }

/-! ## Go maps: lookup after assignment -/

theorem GoMap.lookup_filter {κ ν : Type} [DecidableEq κ] (k j : κ) (es : List (κ × ν)) :
    GoMap.lookup j (es.filter (fun p => !decide (p.1 = k))) =
      if k = j then none else GoMap.lookup j es := by
  induction es with
  | nil => simp [GoMap.lookup]
  | cons e es ih =>
    obtain ⟨k1, v⟩ := e
    by_cases h2 : k = j
    · subst h2
      simp only [if_true] at ih ⊢
      by_cases h1 : k1 = k
      · simp [List.filter_cons, h1, ih]
      · simp [List.filter_cons, h1, GoMap.lookup, ih]
    · simp only [if_neg h2] at ih ⊢
      by_cases h1 : k1 = k
      · subst h1
        simp [List.filter_cons, GoMap.lookup, ih, h2]
      · by_cases h3 : k1 = j
        · subst h3
          simp [List.filter_cons, h1, GoMap.lookup]
        · simp [List.filter_cons, h1, h3, GoMap.lookup, ih]

theorem GoMap.get?_empty {κ ν : Type} [DecidableEq κ] (j : κ) :
    (GoMap.empty : GoMap κ ν).get? j = none := rfl

theorem GoMap.get?_set {κ ν : Type} [DecidableEq κ] (m : GoMap κ ν) (k j : κ) (v : ν) :
    (m.set k v).get? j = if k = j then some v else m.get? j := by
  unfold GoMap.get? GoMap.set
  by_cases h : k = j
  · simp [GoMap.lookup, h]
  · simp [GoMap.lookup, h, GoMap.lookup_filter]

theorem GoMap.len_set_pos {κ ν : Type} [DecidableEq κ] (m : GoMap κ ν) (k : κ) (v : ν) :
    0 < (m.set k v).len := by
  simp [GoMap.len, GoMap.set]

/-! ## Slices: copying and writing -/

theorem copy_make (l : List String) : copy (make l.length) l = l := by
  simp [copy, make]

theorem set_append_cons {α : Type} (pre : List α) (x y : α) (tail : List α) :
    (pre ++ x :: tail).set pre.length y = pre ++ y :: tail := by
  induction pre with
  | nil => rfl
  | cons a pre ih => simp [ih]

theorem getElem?_append_cons {α : Type} (pre : List α) (x : α) (tail : List α) :
    (pre ++ x :: tail)[pre.length]? = some x := by
  induction pre with
  | nil => simp
  | cons a pre ih => simpa using ih

/-! ## clone -/

theorem cloneRecords_eq (rest : List (List String)) :
    ∀ pre : List (List String),
      cloneRecords pre.length rest (pre ++ List.replicate rest.length []) = pre ++ rest := by
  induction rest with
  | nil => intro pre; simp [cloneRecords]
  | cons v rest ih =>
    intro pre
    have h := ih (pre ++ [v])
    simp only [List.length_append, List.length_singleton, List.append_assoc,
      List.singleton_append] at h
    simp only [cloneRecords, List.length_cons, List.replicate_succ, set_append_cons, copy_make]
    exact h

theorem clone_eq (c : CSVHelper) : clone c = c := by
  have h := cloneRecords_eq c.records []
  simp only [List.length_nil, List.nil_append] at h
  simp [clone, newCSV, copy_make, h]

/-! ## MapColumns: what the two passes compute -/

theorem mapHeaderInner_eq (i : Nat) (v : String) (columns : List MapColumn)
    (s : List String × GoMap Nat MapColumn) :
    mapHeaderInner i v columns s =
      match firstDescriptor columns v with
      | some column => (s.1.set i column.Dst, s.2.set i column)
      | none => s := by
  induction columns with
  | nil => rfl
  | cons column rest ih =>
    by_cases h : v = column.Src
    · simp [mapHeaderInner, firstDescriptor, h]
    · simpa [mapHeaderInner, firstDescriptor, h] using ih

theorem mapHeaders_eq (columns : List MapColumn) (rest : List String) :
    ∀ (pre : List String) (m : GoMap Nat MapColumn),
      (mapHeaders columns rest.length pre.length (pre ++ rest, m)).1 =
          pre ++ rest.map (renameHeader columns) ∧
      ∀ j, (mapHeaders columns rest.length pre.length (pre ++ rest, m)).2.get? j =
          match (if pre.length ≤ j then rest[j - pre.length]? else none) with
          | some h =>
            match firstDescriptor columns h with
            | some column => some column
            | none => m.get? j
          | none => m.get? j := by
  induction rest with
  | nil => intro pre m; simp [mapHeaders]
  | cons v rest ih =>
    intro pre m
    simp only [List.length_cons, mapHeaders, getElem?_append_cons, mapHeaderInner_eq]
    cases hd : firstDescriptor columns v with
    | none =>
      have h := ih (pre ++ [v]) m
      simp only [List.length_append, List.length_singleton, List.append_assoc,
        List.singleton_append] at h
      refine ⟨by simp [h.1, renameHeader, hd], fun j => ?_⟩
      rw [h.2 j]
      by_cases h1 : pre.length + 1 ≤ j
      · have h2 : pre.length ≤ j := by omega
        have h3 : j - pre.length = (j - (pre.length + 1)) + 1 := by omega
        simp [h1, h2, h3]
      · by_cases h2 : pre.length ≤ j
        · have h3 : j - pre.length = 0 := by omega
          simp [h1, h2, h3, hd]
        · simp [h1, h2]
    | some column =>
      have h := ih (pre ++ [column.Dst]) (m.set pre.length column)
      simp only [List.length_append, List.length_singleton, List.append_assoc,
        List.singleton_append] at h
      simp only [set_append_cons]
      refine ⟨by simp [h.1, renameHeader, hd], fun j => ?_⟩
      rw [h.2 j]
      by_cases h1 : pre.length + 1 ≤ j
      · have h2 : pre.length ≤ j := by omega
        have h3 : j - pre.length = (j - (pre.length + 1)) + 1 := by omega
        have h4 : pre.length ≠ j := by omega
        simp [h1, h2, h3, h4, GoMap.get?_set]
      · by_cases h2 : pre.length ≤ j
        · have h3 : j - pre.length = 0 := by omega
          have h4 : pre.length = j := by omega
          simp [h1, h2, h3, h4, hd, GoMap.get?_set]
        · have h4 : pre.length ≠ j := by omega
          simp [h1, h2, h4, GoMap.get?_set]

theorem mapRecord_eq (m : GoMap Nat MapColumn) (rest : List String) :
    ∀ pre : List String,
      mapRecord m rest.length pre.length (pre ++ rest) =
        pre ++ rest.mapIdx (fun k v =>
          match m.get? (pre.length + k) with
          | some column => column.MapFunc v
          | none => v) := by
  induction rest with
  | nil => intro pre; simp [mapRecord]
  | cons v rest ih =>
    intro pre
    have hshift : ∀ x : String, (pre ++ [x]).length = pre.length + 1 := by intro x; simp
    have hfun :
        (fun (k : Nat) (w : String) =>
          match m.get? (pre.length + 1 + k) with
          | some column => column.MapFunc w
          | none => w) =
        (fun (k : Nat) (w : String) =>
          match m.get? (pre.length + (k + 1)) with
          | some column => column.MapFunc w
          | none => w) := by
      funext k w
      rw [Nat.add_assoc, Nat.add_comm 1 k]
    simp only [List.length_cons, mapRecord, getElem?_append_cons, List.mapIdx_cons,
      Nat.add_zero]
    cases hg : m.get? pre.length with
    | none =>
      have h := ih (pre ++ [v])
      rw [hshift, hfun] at h
      simp only [List.append_assoc, List.singleton_append] at h
      simpa using h
    | some column =>
      have h := ih (pre ++ [column.MapFunc v])
      rw [hshift, hfun] at h
      simp only [List.append_assoc, List.singleton_append] at h
      simpa [set_append_cons] using h

theorem MapColumns_eq (c : CSVHelper) (columns : List MapColumn) :
    MapColumns c columns =
      { Name := c.Name
        headers := c.headers.map (renameHeader columns)
        records := c.records.map (fun record => record.mapIdx (mapCell c.headers columns)) } := by
  have hh := mapHeaders_eq columns c.headers [] GoMap.empty
  simp only [List.length_nil, List.nil_append, Nat.zero_le, if_true, Nat.sub_zero,
    GoMap.get?_empty] at hh
  have hcell : ∀ record : List String,
      mapRecord (mapHeaders columns c.headers.length 0 (c.headers, GoMap.empty)).2
          record.length 0 record = record.mapIdx (mapCell c.headers columns) := by
    intro record
    have h := mapRecord_eq (mapHeaders columns c.headers.length 0 (c.headers, GoMap.empty)).2
      record []
    simp only [List.length_nil, List.nil_append, Nat.zero_add] at h
    rw [h]
    congr 1
    funext k v
    rw [hh.2 k]
    unfold mapCell
    cases c.headers[k]? with
    | none => rfl
    | some h0 =>
      dsimp only
      cases firstDescriptor columns h0 <;> rfl
  simp only [MapColumns, clone_eq, hh.1, hcell]

/-! ## Select: what the two passes compute -/

theorem selectInner_eq (index : Nat) (header : String) (fields : List String)
    (s : GoMap Nat Bool × List String) :
    selectInner index header fields s =
      if header ∈ fields then (s.1.set index true, s.2 ++ [header]) else s := by
  induction fields with
  | nil => simp [selectInner]
  | cons field rest ih =>
    by_cases h : header = field
    · simp [selectInner, h]
    · simp [selectInner, h, ih]

theorem selectHeaders_eq (fields : List String) (rest : List String) :
    ∀ (i : Nat) (s : GoMap Nat Bool × List String),
      (selectHeaders fields i rest s).2 = s.2 ++ rest.filter (fun h => decide (h ∈ fields)) ∧
      (∀ j, ((selectHeaders fields i rest s).1.get? j).isSome =
          ((decide (i ≤ j) && headerMatches fields rest[j - i]?) || (s.1.get? j).isSome)) ∧
      ((selectHeaders fields i rest s).1.len = 0 ↔
          s.1.len = 0 ∧ rest.filter (fun h => decide (h ∈ fields)) = []) := by
  induction rest with
  | nil => intro i s; simp [selectHeaders, headerMatches]
  | cons header rest ih =>
    intro i s
    simp only [selectHeaders, selectInner_eq]
    by_cases hmem : header ∈ fields
    · obtain ⟨h1, h2, h3⟩ := ih (i + 1) (s.1.set i true, s.2 ++ [header])
      simp only [hmem, if_true]
      refine ⟨by simp [h1, hmem], fun j => ?_, ?_⟩
      · rw [h2 j, GoMap.get?_set]
        by_cases hj : i + 1 ≤ j
        · have e1 : i ≤ j := by omega
          have e2 : j - i = (j - (i + 1)) + 1 := by omega
          have e3 : ¬ i = j := by omega
          simp [hj, e1, e2, e3]
        · by_cases hj2 : i = j
          · subst hj2
            simp [headerMatches, hmem]
          · have e1 : ¬ i ≤ j := by omega
            simp [hj, e1, hj2]
      · rw [h3]
        have hpos := GoMap.len_set_pos s.1 i true
        simp only [List.filter_cons, hmem, decide_True, if_true]
        constructor
        · intro h; omega
        · intro h; exact absurd h.2 (by simp)
    · obtain ⟨h1, h2, h3⟩ := ih (i + 1) s
      simp only [hmem, if_false]
      refine ⟨by simp [h1, hmem], fun j => ?_, ?_⟩
      · rw [h2 j]
        by_cases hj : i + 1 ≤ j
        · have e1 : i ≤ j := by omega
          have e2 : j - i = (j - (i + 1)) + 1 := by omega
          simp [hj, e1, e2]
        · by_cases hj2 : i = j
          · subst hj2
            simp [headerMatches, hmem]
          · have e1 : ¬ i ≤ j := by omega
            simp [hj, e1]
      · rw [h3]
        simp [List.filter_cons, hmem]

theorem selectCells_nil_left (fields record : List String) :
    selectCells [] fields record = [] := by
  simp [selectCells]

theorem selectCells_nil_right (headers fields : List String) :
    selectCells headers fields [] = [] := by
  simp [selectCells]

theorem selectCells_cons (h : String) (headers fields : List String) (v : String)
    (record : List String) :
    selectCells (h :: headers) fields (v :: record) =
      if h ∈ fields then v :: selectCells headers fields record
      else selectCells headers fields record := by
  by_cases hmem : h ∈ fields
  · simp [selectCells, List.filter_cons, hmem]
  · simp [selectCells, List.filter_cons, hmem]

theorem selectRecord_eq (m : GoMap Nat Bool) (headers fields : List String)
    (hm : ∀ j, (m.get? j).isSome = headerMatches fields headers[j]?) (rest : List String) :
    ∀ (i : Nat) (newRecord : List String),
      selectRecord m i rest newRecord =
        newRecord ++ selectCells (headers.drop i) fields rest := by
  induction rest with
  | nil => intro i newRecord; simp [selectRecord, selectCells_nil_right]
  | cons v rest ih =>
    intro i newRecord
    simp only [selectRecord, hm i]
    by_cases hi : i < headers.length
    · have hd : headers.drop i = headers[i] :: headers.drop (i + 1) :=
        List.drop_eq_getElem_cons hi
      have hg : headers[i]? = some headers[i] := List.getElem?_eq_getElem hi
      rw [hd, hg, selectCells_cons]
      by_cases hmem : headers[i] ∈ fields
      · simp only [headerMatches, hmem, decide_True, if_true, ih]
        simp
      · simp only [headerMatches, hmem, decide_False, if_false, ih]
        simp
    · have hd : headers.drop i = [] := List.drop_eq_nil_of_le (by omega)
      have hd1 : headers.drop (i + 1) = [] := List.drop_eq_nil_of_le (by omega)
      have hg : headers[i]? = none := List.getElem?_eq_none (by omega)
      rw [hd, hg, selectCells_nil_left]
      simp [headerMatches, ih, hd1, selectCells_nil_left]

theorem selectRecords_eq (m : GoMap Nat Bool) (rows : List (List String)) :
    ∀ out : List (List String),
      selectRecords m rows out = out ++ rows.map (fun record => selectRecord m 0 record []) := by
  induction rows with
  | nil => intro out; simp [selectRecords]
  | cons record rows ih => intro out; simp [selectRecords, ih]

theorem Select_eq (c : CSVHelper) (fields : List String) :
    Select c fields =
      if c.headers.filter (fun h => decide (h ∈ fields)) = [] then
        { Name := c.Name, headers := [], records := [] }
      else
        { Name := c.Name
          headers := c.headers.filter (fun h => decide (h ∈ fields))
          records := c.records.map (selectCells c.headers fields) } := by
  obtain ⟨h1, h2, h3⟩ := selectHeaders_eq fields c.headers 0 (GoMap.empty, [])
  have hlen : (GoMap.empty : GoMap Nat Bool).len = 0 := rfl
  simp only [hlen, true_and, List.nil_append] at h1 h3
  have hm : ∀ j, ((selectHeaders fields 0 c.headers (GoMap.empty, [])).1.get? j).isSome =
      headerMatches fields c.headers[j]? := by
    intro j
    rw [h2 j]
    simp [GoMap.get?_empty]
  have hrec : ∀ record : List String,
      selectRecord (selectHeaders fields 0 c.headers (GoMap.empty, [])).1 0 record [] =
        selectCells c.headers fields record := by
    intro record
    have h := selectRecord_eq _ c.headers fields hm record 0 []
    simpa using h
  unfold Select
  simp only [newCSV, h1, h3, selectRecords_eq, hrec, List.nil_append]
  by_cases hnil : c.headers.filter (fun h => decide (h ∈ fields)) = []
  · simp [hnil]
  · simp [hnil]

/-! ## Join: what the loops compute -/

theorem findIndex_eq (column : String) (hs : List String) :
    ∀ i : Nat, findIndex column i hs =
      if column ∈ hs then ((i + hs.indexOf column : Nat) : Int) else -1 := by
  induction hs with
  | nil => intro i; simp [findIndex]
  | cons v hs ih =>
    intro i
    by_cases h : v = column
    · simp [findIndex, h]
    · have h1 : ¬ column = v := fun e => h e.symm
      simp only [findIndex, h, if_false, ih (i + 1), List.mem_cons, h1, false_or,
        List.indexOf_cons_ne _ h]
      by_cases hmem : column ∈ hs
      · simp only [hmem, if_true]
        congr 1
        omega
      · simp [hmem]

theorem index_natCast (record : List String) (n : Nat) : index record (n : Int) = record[n]? := by
  simp [index]

theorem headerMapAt_set (m : GoMap String Bool) (h v : String) :
    headerMapAt (m.set h true) v = (decide (h = v) || headerMapAt m v) := by
  by_cases e : h = v
  · simp [headerMapAt, GoMap.get?_set, e]
  · simp [headerMapAt, GoMap.get?_set, e]

theorem headerMapAt_build (hs : List String) :
    ∀ (m : GoMap String Bool) (v : String),
      headerMapAt (buildHeaderMap hs m) v = (decide (v ∈ hs) || headerMapAt m v) := by
  induction hs with
  | nil => intro m v; simp [buildHeaderMap]
  | cons h hs ih =>
    intro m v
    simp only [buildHeaderMap, ih, headerMapAt_set, List.mem_cons]
    by_cases e : h = v
    · simp [e]
    · have e1 : ¬ v = h := fun x => e x.symm
      simp [e, e1]

theorem headerMapAt_headers (hs : List String) (v : String) :
    headerMapAt (buildHeaderMap hs GoMap.empty) v = decide (v ∈ hs) := by
  rw [headerMapAt_build]
  simp [headerMapAt, GoMap.get?_empty]

theorem qualifyHeaders_eq (rightName : String) (headerMap : GoMap String Bool)
    (rest : List String) :
    ∀ pre : List String,
      qualifyHeaders rightName headerMap rest.length pre.length (pre ++ rest) =
        pre ++ rest.map (fun v =>
          if headerMapAt headerMap v then rightName ++ "." ++ v else v) := by
  induction rest with
  | nil => intro pre; simp [qualifyHeaders]
  | cons v rest ih =>
    intro pre
    simp only [List.length_cons, qualifyHeaders, getElem?_append_cons, List.map_cons]
    by_cases h : headerMapAt headerMap v = true
    · have h1 := ih (pre ++ [rightName ++ "." ++ v])
      simp only [List.length_append, List.length_singleton, List.append_assoc,
        List.singleton_append] at h1
      simp only [h, if_true, set_append_cons, h1]
    · have h1 := ih (pre ++ [v])
      simp only [List.length_append, List.length_singleton, List.append_assoc,
        List.singleton_append] at h1
      simp only [h, if_false, h1]
      simp

theorem lastMatch_cons (record : List String) (rows : List (List String)) (n : Nat)
    (key : String) :
    lastMatch (record :: rows) n key =
      if record[n]? = some key then some ((lastMatch rows n key).getD record)
      else lastMatch rows n key := by
  by_cases h : record[n]? = some key
  · simp [lastMatch, List.filter_cons, h, List.getLast?_cons]
  · simp [lastMatch, List.filter_cons, h]

theorem buildRecordsMap_some (n : Nat) (rows : List (List String)) :
    ∀ m : GoMap String (List String), (∀ r ∈ rows, n < r.length) →
      ∃ m1, buildRecordsMap (n : Int) rows m = some m1 ∧
        ∀ key, m1.get? key = (lastMatch rows n key).or (m.get? key) := by
  induction rows with
  | nil => intro m _; exact ⟨m, rfl, fun key => by simp [lastMatch]⟩
  | cons record rows ih =>
    intro m hall
    have hlt : n < record.length := hall record (List.mem_cons_self _ _)
    have hg : record[n]? = some record[n] := List.getElem?_eq_getElem hlt
    obtain ⟨m1, hm1, hget⟩ := ih (m.set record[n] record)
      (fun r hr => hall r (List.mem_cons_of_mem _ hr))
    refine ⟨m1, by simp only [buildRecordsMap, index_natCast, hg, hm1], fun key => ?_⟩
    rw [hget key, lastMatch_cons, GoMap.get?_set, hg]
    by_cases e : record[n] = key
    · simp only [e, if_true]
      cases lastMatch rows n key <;> simp
    · have e1 : ¬ some record[n] = some key := fun x => e (Option.some.inj x)
      simp only [e, e1, if_false]

theorem buildRecordsMap_none (n : Nat) (rows : List (List String)) :
    ∀ m : GoMap String (List String), ¬ (∀ r ∈ rows, n < r.length) →
      buildRecordsMap (n : Int) rows m = none := by
  induction rows with
  | nil => intro m h; exact absurd (fun r hr => absurd hr (List.not_mem_nil r)) h
  | cons record rows ih =>
    intro m h
    by_cases hlt : n < record.length
    · have hg : record[n]? = some record[n] := List.getElem?_eq_getElem hlt
      have hrest : ¬ (∀ r ∈ rows, n < r.length) := by
        intro hall
        apply h
        intro r hr
        rcases List.mem_cons.mp hr with e | e
        · rw [e]; exact hlt
        · exact hall r e
      simp only [buildRecordsMap, index_natCast, hg, ih _ hrest]
    · have hg : record[n]? = none := List.getElem?_eq_none (by omega)
      simp only [buildRecordsMap, index_natCast, hg]

theorem joinRecords_some (n ri : Nat) (rightRows : List (List String))
    (m : GoMap String (List String)) (hm : ∀ key, m.get? key = lastMatch rightRows ri key)
    (rows : List (List String)) :
    ∀ out : List (List String), (∀ r ∈ rows, n < r.length) →
      joinRecords (n : Int) m rows out = some (out ++ rows.map (joinRow rightRows n ri)) := by
  induction rows with
  | nil => intro out _; simp [joinRecords]
  | cons record rows ih =>
    intro out hall
    have hlt : n < record.length := hall record (List.mem_cons_self _ _)
    have hg : record[n]? = some record[n] := List.getElem?_eq_getElem hlt
    have hrest : ∀ r ∈ rows, n < r.length := fun r hr => hall r (List.mem_cons_of_mem _ hr)
    simp only [joinRecords, index_natCast, hg, hm, List.map_cons, joinRow]
    cases lastMatch rightRows ri record[n] with
    | none => simp only [ih _ hrest]; simp
    | some rightRecords => simp only [ih _ hrest]; simp

theorem joinRecords_none (n : Nat) (m : GoMap String (List String))
    (rows : List (List String)) :
    ∀ out : List (List String), ¬ (∀ r ∈ rows, n < r.length) →
      joinRecords (n : Int) m rows out = none := by
  induction rows with
  | nil => intro out h; exact absurd (fun r hr => absurd hr (List.not_mem_nil r)) h
  | cons record rows ih =>
    intro out h
    by_cases hlt : n < record.length
    · have hg : record[n]? = some record[n] := List.getElem?_eq_getElem hlt
      have hrest : ¬ (∀ r ∈ rows, n < r.length) := by
        intro hall
        apply h
        intro r hr
        rcases List.mem_cons.mp hr with e | e
        · rw [e]; exact hlt
        · exact hall r e
      simp only [joinRecords, index_natCast, hg]
      cases m.get? record[n] with
      | none => exact ih _ hrest
      | some rightRecords => exact ih _ hrest
    · have hg : record[n]? = none := List.getElem?_eq_none (by omega)
      simp only [joinRecords, index_natCast, hg]

/-- The table a join returns when both key columns are found and no key cell is missing. -/
theorem Join_eq (c right : CSVHelper) (leftColumn rightColumn : String) :
    Join c right leftColumn rightColumn =
      if rightColumn ∈ right.headers ∧ leftColumn ∈ c.headers then
        if (∀ r ∈ right.records, right.headers.indexOf rightColumn < r.length) ∧
            (∀ r ∈ c.records, c.headers.indexOf leftColumn < r.length) then
          some
            { Name := c.Name ++ "." ++ right.Name
              headers := c.headers ++ right.headers.map (qualifyHeader c.headers right.Name)
              records := c.records.map
                (joinRow right.records (c.headers.indexOf leftColumn)
                  (right.headers.indexOf rightColumn)) }
        else none
      else some c := by
  unfold Join
  simp only [copy_make, findIndex_eq, Nat.zero_add]
  by_cases hr : rightColumn ∈ right.headers
  · by_cases hl : leftColumn ∈ c.headers
    · have e1 : ¬ (((right.headers.indexOf rightColumn : Nat) : Int) = -1) := by omega
      have e2 : ¬ (((c.headers.indexOf leftColumn : Nat) : Int) = -1) := by omega
      have hq := qualifyHeaders_eq right.Name (buildHeaderMap c.headers GoMap.empty)
        right.headers []
      simp only [List.length_nil, List.nil_append, headerMapAt_headers] at hq
      have hq1 : right.headers.map (fun v =>
          if decide (v ∈ c.headers) = true then right.Name ++ "." ++ v else v) =
          right.headers.map (qualifyHeader c.headers right.Name) := by
        apply List.map_congr_left
        intro v _
        simp [qualifyHeader]
      rw [hq1] at hq
      simp only [hr, hl, if_true, e1, e2, or_self, if_false, and_self, hq, newCSV]
      by_cases hR : ∀ r ∈ right.records, right.headers.indexOf rightColumn < r.length
      · obtain ⟨m1, hm1, hget⟩ := buildRecordsMap_some _ right.records GoMap.empty hR
        have hget1 : ∀ key, m1.get? key =
            lastMatch right.records (right.headers.indexOf rightColumn) key := by
          intro key
          rw [hget key, GoMap.get?_empty]
          cases lastMatch right.records (right.headers.indexOf rightColumn) key <;> rfl
        rw [hm1]
        dsimp only
        by_cases hL : ∀ r ∈ c.records, c.headers.indexOf leftColumn < r.length
        · rw [joinRecords_some _ _ right.records m1 hget1 c.records [] hL, if_pos ⟨hR, hL⟩]
          simp
        · rw [joinRecords_none _ m1 c.records [] hL, if_neg (fun h => hL h.2)]
      · rw [buildRecordsMap_none _ right.records GoMap.empty hR, if_neg (fun h => hR h.1)]
    · simp [hr, hl]
  · simp [hr]

/-! ## Projection: positions, cells and lengths -/

theorem matchedPositions_cons (h : String) (hs fields : List String) :
    matchedPositions (h :: hs) fields =
      (if h ∈ fields then [0] else []) ++ (matchedPositions hs fields).map (fun j => j + 1) := by
  unfold matchedPositions
  rw [List.length_cons, List.range_succ_eq_map, List.filter_cons, List.filter_map]
  have hf : ((fun j => headerMatches fields (h :: hs)[j]?) ∘ Nat.succ) =
      (fun j => headerMatches fields hs[j]?) := by
    funext j
    simp
  rw [hf]
  by_cases hmem : h ∈ fields
  · simp [headerMatches, hmem]
  · simp [headerMatches, hmem]

theorem cellsAt_nil_record (ps : List Nat) : cellsAt ps [] = [] := by
  simp [cellsAt]

theorem cellsAt_map_succ (ps : List Nat) (v : String) (r : List String) :
    cellsAt (ps.map (fun j => j + 1)) (v :: r) = cellsAt ps r := by
  simp [cellsAt, List.filterMap_map, Function.comp_def]

theorem cellsAt_append (ps qs : List Nat) (r : List String) :
    cellsAt (ps ++ qs) r = cellsAt ps r ++ cellsAt qs r := by
  simp [cellsAt]

theorem selectCells_eq_cellsAt (fields : List String) (hs : List String) :
    ∀ r : List String, selectCells hs fields r = cellsAt (matchedPositions hs fields) r := by
  induction hs with
  | nil => intro r; simp [selectCells_nil_left, matchedPositions, cellsAt]
  | cons h hs ih =>
    intro r
    cases r with
    | nil => rw [selectCells_nil_right, cellsAt_nil_record]
    | cons v r =>
      rw [selectCells_cons, matchedPositions_cons, cellsAt_append, cellsAt_map_succ, ih r]
      by_cases hmem : h ∈ fields
      · simp [hmem, cellsAt]
      · simp [hmem, cellsAt]

theorem filter_eq_selectCells (fields : List String) (hs : List String) :
    hs.filter (fun h => decide (h ∈ fields)) = selectCells hs fields hs := by
  induction hs with
  | nil => simp [selectCells_nil_left]
  | cons h hs ih =>
    rw [selectCells_cons, List.filter_cons]
    by_cases hmem : h ∈ fields
    · simp [hmem, ih]
    · simp [hmem, ih]

theorem selectCells_length (fields : List String) (hs : List String) :
    ∀ r : List String, r.length = hs.length →
      (selectCells hs fields r).length = (hs.filter (fun h => decide (h ∈ fields))).length := by
  induction hs with
  | nil => intro r _; simp [selectCells_nil_left]
  | cons h hs ih =>
    intro r hr
    cases r with
    | nil => simp at hr
    | cons v r =>
      have hr1 : r.length = hs.length := by simpa using hr
      rw [selectCells_cons, List.filter_cons]
      by_cases hmem : h ∈ fields
      · simp [hmem, ih r hr1]
      · simp [hmem, ih r hr1]

theorem selectCells_length_le (fields : List String) (hs : List String) :
    ∀ r : List String,
      (selectCells hs fields r).length ≤ (hs.filter (fun h => decide (h ∈ fields))).length := by
  induction hs with
  | nil => intro r; simp [selectCells_nil_left]
  | cons h hs ih =>
    intro r
    cases r with
    | nil => simp [selectCells_nil_right]
    | cons v r =>
      rw [selectCells_cons, List.filter_cons]
      by_cases hmem : h ∈ fields
      · simpa [hmem] using ih r
      · simpa [hmem] using ih r

theorem selectCells_all (fields : List String) (hs : List String) :
    ∀ r : List String, (∀ h ∈ hs, h ∈ fields) → r.length ≤ hs.length →
      selectCells hs fields r = r := by
  induction hs with
  | nil =>
    intro r _ hr
    have : r = [] := List.eq_nil_of_length_eq_zero (by simpa using hr)
    rw [this, selectCells_nil_left]
  | cons h hs ih =>
    intro r hall hr
    cases r with
    | nil => rw [selectCells_nil_right]
    | cons v r =>
      have hmem : h ∈ fields := hall h (List.mem_cons_self _ _)
      have hr1 : r.length ≤ hs.length := by simpa using hr
      rw [selectCells_cons, if_pos hmem,
        ih r (fun x hx => hall x (List.mem_cons_of_mem _ hx)) hr1]

theorem mem_matchedPositions_lt (hs fields : List String) (j : Nat)
    (hj : j ∈ matchedPositions hs fields) : j < hs.length := by
  unfold matchedPositions at hj
  exact List.mem_range.mp (List.mem_filter.mp hj).1

theorem cellsAt_getElem? (x : List String) (ps : List Nat) :
    (∀ j ∈ ps, j < x.length) →
      (cellsAt ps x).length = ps.length ∧
      ∀ (k j : Nat), ps[k]? = some j → (cellsAt ps x)[k]? = x[j]? := by
  induction ps with
  | nil => intro _; simp [cellsAt]
  | cons q ps ih =>
    intro hall
    have hq : q < x.length := hall q (List.mem_cons_self _ _)
    have hg : x[q]? = some x[q] := List.getElem?_eq_getElem hq
    obtain ⟨h1, h2⟩ := ih (fun j hj => hall j (List.mem_cons_of_mem _ hj))
    have hc : cellsAt (q :: ps) x = x[q] :: cellsAt ps x := by
      simp [cellsAt, hg]
    rw [hc]
    refine ⟨by simp [h1], fun k j hk => ?_⟩
    cases k with
    | zero =>
      have : q = j := by simpa using hk
      subst this
      simp
    | succ k =>
      have hk1 : ps[k]? = some j := by simpa using hk
      simpa using h2 k j hk1

/-! ## Join: the last matching right row -/

theorem lastMatch_mem (rows : List (List String)) (n : Nat) (key : String)
    (rr : List String) (h : lastMatch rows n key = some rr) :
    rr ∈ rows ∧ rr[n]? = some key := by
  unfold lastMatch at h
  have hm := List.mem_of_getLast?_eq_some h
  have hf := List.mem_filter.mp hm
  exact ⟨hf.1, by simpa using hf.2⟩

theorem lastMatch_ne_none (rows : List (List String)) (n : Nat) (key : String)
    (r : List String) (hr : r ∈ rows) (hk : r[n]? = some key) :
    lastMatch rows n key ≠ none := by
  unfold lastMatch
  intro h
  have hnil := List.getLast?_eq_none_iff.mp h
  have hm : r ∈ rows.filter (fun r => decide (r[n]? = some key)) :=
    List.mem_filter.mpr ⟨hr, by simpa using hk⟩
  rw [hnil] at hm
  exact absurd hm (List.not_mem_nil r)

/-! ## The claims about Join -/

/-- C2: when both key columns are found, the headers of every table `Join` returns are the
left headers followed by the right headers in order, each right header `h` replaced by
`right.Name + "." + h` exactly when `h` is one of the left headers; and `Join` does return
a table when every row has a cell at its key index. -/
theorem Join_headers_qualified (c right : CSVHelper) (leftColumn rightColumn : String)
    (hl : leftColumn ∈ c.headers) (hr : rightColumn ∈ right.headers) :
    (∀ t, Join c right leftColumn rightColumn = some t →
      t.headers = c.headers ++
        right.headers.map (fun h => if h ∈ c.headers then right.Name ++ "." ++ h else h)) ∧
    ((∀ r ∈ c.records, c.headers.indexOf leftColumn < r.length) →
      (∀ r ∈ right.records, right.headers.indexOf rightColumn < r.length) →
      ∃ t, Join c right leftColumn rightColumn = some t) := by
  rw [Join_eq, if_pos ⟨hr, hl⟩]
  constructor
  · intro t ht
    by_cases hrows : (∀ r ∈ right.records, right.headers.indexOf rightColumn < r.length) ∧
        (∀ r ∈ c.records, c.headers.indexOf leftColumn < r.length)
    · rw [if_pos hrows] at ht
      rw [← Option.some.inj ht]
      rfl
    · rw [if_neg hrows] at ht
      exact absurd ht (by simp)
  · intro hL hR
    rw [if_pos ⟨hR, hL⟩]
    exact ⟨_, rfl⟩

/-- C2, on the join scenario: the colliding right header `id` is qualified, `score` is
kept. -/
theorem Join_headers_qualified_witness :
    ∃ t, Join scenarioLeft scenarioRight "id" "id" = some t ∧
      t.headers = ["id", "name", "R.id", "score"] := by
  obtain ⟨h1, h2⟩ :=
    Join_headers_qualified scenarioLeft scenarioRight "id" "id" (by decide) (by decide)
  obtain ⟨t, ht⟩ := h2 (by decide) (by decide)
  exact ⟨t, ht, (h1 t ht).trans (by decide)⟩

/-- C3: if `leftColumn` does not occur in the left headers or `rightColumn` does not occur
in the right headers, `Join` returns a table equal to `left`: same name, same headers, same
rows, and no failure. -/
theorem Join_degenerate (c right : CSVHelper) (leftColumn rightColumn : String)
    (h : leftColumn ∉ c.headers ∨ rightColumn ∉ right.headers) :
    Join c right leftColumn rightColumn = some c := by
  rw [Join_eq, if_neg]
  intro hboth
  rcases h with h | h
  · exact h hboth.2
  · exact h hboth.1

/-- C3, on the join scenario with the absent column names `k` and `x`. -/
theorem Join_degenerate_witness :
    Join scenarioLeft scenarioRight "k" "x" = some scenarioLeft :=
  Join_degenerate scenarioLeft scenarioRight "k" "x" (Or.inl (by decide))

/-! ## The row-width invariant -/

/-- C4 as stated fails for `Join`: in the join scenario every row of both inputs has one
cell per header, `Join` returns a table, and that table has a row (the unmatched left row
of key `2`, two cells under four headers) whose length is not the header count. -/
theorem Join_breaks_alignment :
    RowsAligned scenarioLeft ∧ RowsAligned scenarioRight ∧
    ∃ t, Join scenarioLeft scenarioRight "id" "id" = some t ∧ ¬ RowsAligned t := by
  refine ⟨by unfold RowsAligned; decide, by unfold RowsAligned; decide,
    ⟨{ Name := "L.R", headers := ["id", "name", "R.id", "score"],
       records := [["1", "a", "1", "10"], ["2", "b"]] }, by decide, ?_⟩⟩
  unfold RowsAligned
  decide

/-- C4, amended: `MapColumns` and `Select` preserve "every row has one cell per header";
`Join` of two tables with that property returns a table, and that table has the property
whenever a key column is not found or the key cell of every left row equals the key cell
of some right row. -/
theorem transforms_preserve_alignment :
    (∀ (c : CSVHelper) (columns : List MapColumn),
      RowsAligned c → RowsAligned (MapColumns c columns)) ∧
    (∀ (c : CSVHelper) (fields : List String),
      RowsAligned c → RowsAligned (Select c fields)) ∧
    (∀ (c right : CSVHelper) (leftColumn rightColumn : String),
      RowsAligned c → RowsAligned right →
      (leftColumn ∈ c.headers → rightColumn ∈ right.headers →
        ∀ l ∈ c.records, ∃ r ∈ right.records,
          r[right.headers.indexOf rightColumn]? = l[c.headers.indexOf leftColumn]?) →
      ∃ t, Join c right leftColumn rightColumn = some t ∧ RowsAligned t) := by
  refine ⟨?_, ?_, ?_⟩
  · intro c columns hc
    rw [MapColumns_eq]
    intro r hr
    obtain ⟨r0, hr0, rfl⟩ := List.mem_map.mp hr
    simpa using hc r0 hr0
  · intro c fields hc
    rw [Select_eq]
    by_cases hnil : c.headers.filter (fun h => decide (h ∈ fields)) = []
    · rw [if_pos hnil]
      intro r hr
      exact absurd hr (List.not_mem_nil r)
    · rw [if_neg hnil]
      intro r hr
      obtain ⟨r0, hr0, rfl⟩ := List.mem_map.mp hr
      exact selectCells_length fields c.headers r0 (hc r0 hr0)
  · intro c right leftColumn rightColumn hc hright hmatch
    rw [Join_eq]
    by_cases hfound : rightColumn ∈ right.headers ∧ leftColumn ∈ c.headers
    · have hli : c.headers.indexOf leftColumn < c.headers.length :=
        List.indexOf_lt_length.mpr hfound.2
      have hri : right.headers.indexOf rightColumn < right.headers.length :=
        List.indexOf_lt_length.mpr hfound.1
      have hL : ∀ r ∈ c.records, c.headers.indexOf leftColumn < r.length := by
        intro r hr
        rw [hc r hr]
        exact hli
      have hR : ∀ r ∈ right.records, right.headers.indexOf rightColumn < r.length := by
        intro r hr
        rw [hright r hr]
        exact hri
      rw [if_pos hfound, if_pos ⟨hR, hL⟩]
      refine ⟨_, rfl, ?_⟩
      intro r hr
      obtain ⟨l, hl, rfl⟩ := List.mem_map.mp hr
      obtain ⟨r1, hr1, hkey⟩ := hmatch hfound.2 hfound.1 l hl
      obtain ⟨key, hg⟩ : ∃ key, l[c.headers.indexOf leftColumn]? = some key :=
        ⟨_, List.getElem?_eq_getElem (hL l hl)⟩
      rw [hg] at hkey
      have hne := lastMatch_ne_none right.records _ _ r1 hr1 hkey
      cases hlast : lastMatch right.records (right.headers.indexOf rightColumn) key with
      | none => exact absurd hlast hne
      | some rr =>
        have hrr := (lastMatch_mem _ _ _ rr hlast).1
        simp only [joinRow, hg, hlast, List.length_append, List.length_map, hc l hl,
          hright rr hrr]
    · rw [if_neg hfound]
      exact ⟨c, rfl, hc⟩

/-- C4, amended, on a join in which every left key is matched: the rows of the result have
one cell per header. -/
theorem transforms_preserve_alignment_witness :
    ∃ t, Join scenarioRight scenarioLeft "id" "id" = some t ∧ RowsAligned t :=
  transforms_preserve_alignment.2.2 scenarioRight scenarioLeft "id" "id"
    (by unfold RowsAligned; decide) (by unfold RowsAligned; decide)
    (fun _ _ => by decide)

/-! ## The claims about Select -/

theorem filter_ne_nil_of_match (hs fields : List String) (h : ∃ x ∈ hs, x ∈ fields) :
    hs.filter (fun x => decide (x ∈ fields)) ≠ [] := by
  obtain ⟨x, hx, hxf⟩ := h
  intro hnil
  have hm : x ∈ hs.filter (fun x => decide (x ∈ fields)) :=
    List.mem_filter.mpr ⟨hx, by simpa using hxf⟩
  rw [hnil] at hm
  exact absurd hm (List.not_mem_nil x)

/-- C5 as stated fails: the projection scenario table has one row, and `Select` with the
single field `z`, which is no header, returns a table with no row. -/
theorem Select_drops_rows_without_match :
    (Select scenarioTable ["z"]).records.length ≠ scenarioTable.records.length := by
  decide

/-- C5, amended: for every table and every list of field names at least one of which is a
header of the table, the number of rows of `Select`'s result equals the number of rows of
the input table. -/
theorem Select_row_count (c : CSVHelper) (fields : List String)
    (h : ∃ x ∈ c.headers, x ∈ fields) :
    (Select c fields).records.length = c.records.length := by
  rw [Select_eq, if_neg (filter_ne_nil_of_match c.headers fields h)]
  simp

/-- C5, amended, on the projection scenario with the fields `c`, `a`. -/
theorem Select_row_count_witness :
    (∃ x ∈ scenarioTable.headers, x ∈ ["c", "a"]) ∧
    (Select scenarioTable ["c", "a"]).records.length = scenarioTable.records.length :=
  ⟨⟨"a", by decide, by decide⟩,
    Select_row_count scenarioTable ["c", "a"] ⟨"a", by decide, by decide⟩⟩

/-- C6: for every table and every list of field names, the headers of `Select`'s result are
exactly the input headers that occur in the field list, in the order of the input headers,
and the result keeps the name of the input table. -/
theorem Select_headers (c : CSVHelper) (fields : List String) :
    (Select c fields).headers = c.headers.filter (fun h => decide (h ∈ fields)) ∧
    (Select c fields).Name = c.Name := by
  rw [Select_eq]
  by_cases hnil : c.headers.filter (fun h => decide (h ∈ fields)) = []
  · rw [if_pos hnil, hnil]
    exact ⟨rfl, rfl⟩
  · rw [if_neg hnil]
    exact ⟨rfl, rfl⟩

/-- C6, on the projection scenario: the fields `c`, `a` give the headers `a`, `c`. -/
theorem Select_headers_witness :
    (Select scenarioTable ["c", "a"]).headers = ["a", "c"] :=
  (Select_headers scenarioTable ["c", "a"]).1.trans (by decide)

/-- C7: when at least one header occurs in the field list, the `i`-th row of `Select`'s
result is the sequence of the cells of the `i`-th input row at the positions of the matched
headers, in ascending position; and when the input row has one cell per input header, the
output row has one cell per output header, the `k`-th output header and the `k`-th output
cell both coming from the `k`-th matched position. -/
theorem Select_rows_at_matched_positions (c : CSVHelper) (fields : List String)
    (hmatch : ∃ x ∈ c.headers, x ∈ fields)
    (i : Nat) (record : List String) (hi : c.records[i]? = some record) :
    ∃ out, (Select c fields).records[i]? = some out ∧
      out = cellsAt (matchedPositions c.headers fields) record ∧
      (record.length = c.headers.length →
        out.length = (Select c fields).headers.length ∧
        ∀ (k j : Nat), (matchedPositions c.headers fields)[k]? = some j →
          (Select c fields).headers[k]? = c.headers[j]? ∧ out[k]? = record[j]?) := by
  rw [Select_eq, if_neg (filter_ne_nil_of_match c.headers fields hmatch)]
  refine ⟨selectCells c.headers fields record, by simp [hi],
    selectCells_eq_cellsAt fields c.headers record, ?_⟩
  intro hlen
  have hpos : ∀ j ∈ matchedPositions c.headers fields, j < c.headers.length :=
    fun j hj => mem_matchedPositions_lt c.headers fields j hj
  have hposr : ∀ j ∈ matchedPositions c.headers fields, j < record.length := by
    intro j hj
    rw [hlen]
    exact hpos j hj
  obtain ⟨hl1, hg1⟩ := cellsAt_getElem? c.headers (matchedPositions c.headers fields) hpos
  obtain ⟨hl2, hg2⟩ := cellsAt_getElem? record (matchedPositions c.headers fields) hposr
  have hhead : c.headers.filter (fun h => decide (h ∈ fields)) =
      cellsAt (matchedPositions c.headers fields) c.headers := by
    rw [filter_eq_selectCells, selectCells_eq_cellsAt]
  simp only [hhead, selectCells_eq_cellsAt]
  exact ⟨by rw [hl1, hl2], fun k j hk => ⟨hg1 k j hk, hg2 k j hk⟩⟩

/-- C7, on the projection scenario: the row `1, 2, 3` under the fields `c`, `a` becomes the
cells at the matched positions `0` and `2`. -/
theorem Select_rows_at_matched_positions_witness :
    ∃ out, (Select scenarioTable ["c", "a"]).records[0]? = some out ∧ out = ["1", "3"] := by
  obtain ⟨out, h1, h2, _⟩ :=
    Select_rows_at_matched_positions scenarioTable ["c", "a"] ⟨"a", by decide, by decide⟩
      0 ["1", "2", "3"] (by decide)
  exact ⟨out, h1, h2.trans (by decide)⟩

/-- C8: `Select (Select T F) F` equals `Select T F` in name, headers and rows, for every
table `T` and field list `F`, whether or not a header matches and whatever the lengths of
the rows. -/
theorem Select_idempotent (c : CSVHelper) (fields : List String) :
    Select (Select c fields) fields = Select c fields := by
  rw [Select_eq c fields]
  by_cases hnil : c.headers.filter (fun h => decide (h ∈ fields)) = []
  · rw [if_pos hnil, Select_eq]
    simp
  · rw [if_neg hnil, Select_eq]
    have hall : ∀ h ∈ c.headers.filter (fun h => decide (h ∈ fields)), h ∈ fields := by
      intro h hh
      simpa using (List.mem_filter.mp hh).2
    have hff : (c.headers.filter (fun h => decide (h ∈ fields))).filter
        (fun h => decide (h ∈ fields)) = c.headers.filter (fun h => decide (h ∈ fields)) := by
      simp [List.filter_filter]
    have hrows : (c.records.map (selectCells c.headers fields)).map
        (selectCells (c.headers.filter (fun h => decide (h ∈ fields))) fields) =
        c.records.map (selectCells c.headers fields) := by
      rw [List.map_map]
      apply List.map_congr_left
      intro r _
      exact selectCells_all fields _ _ hall (selectCells_length_le fields c.headers r)
    simp only [hff, hrows, if_neg hnil]

/-! ## The claims about MapColumns -/

theorem firstDescriptor_split (pre : List MapColumn) (column : MapColumn)
    (post : List MapColumn) (h : String) (hsrc : column.Src = h)
    (hpre : ∀ d ∈ pre, d.Src ≠ h) :
    firstDescriptor (pre ++ column :: post) h = some column := by
  induction pre with
  | nil => simp [firstDescriptor, hsrc]
  | cons d pre ih =>
    have hd : ¬ h = d.Src := fun e => hpre d (List.mem_cons_self _ _) e.symm
    have ih1 := ih (fun x hx => hpre x (List.mem_cons_of_mem _ hx))
    unfold firstDescriptor at ih1 ⊢
    simpa [List.find?_cons, hd] using ih1

theorem firstDescriptor_none (columns : List MapColumn) (h : String)
    (hno : ∀ d ∈ columns, d.Src ≠ h) : firstDescriptor columns h = none := by
  unfold firstDescriptor
  rw [List.find?_eq_none]
  intro d hd
  have := hno d hd
  simpa using fun e : h = d.Src => this e.symm

/-- C9: at a header position `i` whose original name `h` is the `Src` of some descriptor,
`MapColumns` uses the first such descriptor in descriptor order (`column`, no descriptor
before it having the source `h`): the output header at `i` is its `Dst`, and in every row
the cell at `i` is its `MapFunc` applied once to the original cell. The match is on the
original header, whatever the headers are renamed to. -/
theorem MapColumns_first_descriptor (c : CSVHelper) (pre : List MapColumn)
    (column : MapColumn) (post : List MapColumn) (i : Nat) (h : String)
    (hh : c.headers[i]? = some h) (hsrc : column.Src = h) (hpre : ∀ d ∈ pre, d.Src ≠ h) :
    (MapColumns c (pre ++ column :: post)).headers[i]? = some column.Dst ∧
    ∀ (k : Nat) (record : List String) (v : String),
      c.records[k]? = some record → record[i]? = some v →
      ∃ out, (MapColumns c (pre ++ column :: post)).records[k]? = some out ∧
        out[i]? = some (column.MapFunc v) := by
  have hfd := firstDescriptor_split pre column post h hsrc hpre
  rw [MapColumns_eq]
  refine ⟨by simp [hh, renameHeader, hfd], ?_⟩
  intro k record v hk hv
  refine ⟨record.mapIdx (mapCell c.headers (pre ++ column :: post)), by simp [hk], ?_⟩
  simp [List.getElem?_mapIdx, hv, mapCell, hh, hfd]

/-- C9, on the projection scenario with three descriptors: position `0` (header `a`) takes
the first descriptor of source `a`, so its header becomes `b`, which the descriptor of
source `b` does not rename again, and its cell `1` becomes `1!`. -/
theorem MapColumns_first_descriptor_witness :
    (MapColumns scenarioTable scenarioColumns).headers[0]? = some "b" ∧
    ∃ out, (MapColumns scenarioTable scenarioColumns).records[0]? = some out ∧
      out[0]? = some "1!" := by
  obtain ⟨h1, h2⟩ := MapColumns_first_descriptor scenarioTable []
    { Src := "a", Dst := "b", MapFunc := fun v => v ++ "!" }
    [{ Src := "b", Dst := "x", MapFunc := fun v => v ++ "?" },
     { Src := "a", Dst := "z", MapFunc := fun v => v ++ "#" }]
    0 "a" (by decide) rfl (fun d hd => absurd hd (List.not_mem_nil d))
  obtain ⟨out, h3, h4⟩ := h2 0 ["1", "2", "3"] "1" (by decide) (by decide)
  exact ⟨h1, out, h3, h4.trans (by decide)⟩

/-- C10: a column whose header is the `Src` of no descriptor is passed through by
`MapColumns`: its header and every cell at its position are unchanged, at the same
position; and `MapColumns` with no descriptor returns a table equal to the input in name,
headers and rows. -/
theorem MapColumns_pass_through (c : CSVHelper) (columns : List MapColumn) :
    (∀ (i : Nat) (h : String), c.headers[i]? = some h → (∀ d ∈ columns, d.Src ≠ h) →
      (MapColumns c columns).headers[i]? = some h ∧
      ∀ (k : Nat) (record : List String), c.records[k]? = some record →
        ∃ out, (MapColumns c columns).records[k]? = some out ∧ out[i]? = record[i]?) ∧
    MapColumns c [] = c := by
  constructor
  · intro i h hh hno
    have hfd := firstDescriptor_none columns h hno
    rw [MapColumns_eq]
    refine ⟨by simp [hh, renameHeader, hfd], ?_⟩
    intro k record hk
    refine ⟨record.mapIdx (mapCell c.headers columns), by simp [hk], ?_⟩
    rw [List.getElem?_mapIdx]
    cases record[i]? with
    | none => rfl
    | some v => simp [mapCell, hh, hfd]
  · rw [MapColumns_eq]
    have hheaders : c.headers.map (renameHeader []) = c.headers := by
      apply List.ext_getElem?
      intro j
      rw [List.getElem?_map]
      cases c.headers[j]? <;> simp [renameHeader, firstDescriptor]
    have hrows : c.records.map (fun record => record.mapIdx (mapCell c.headers [])) =
        c.records := by
      have hid : ∀ record : List String,
          record.mapIdx (mapCell c.headers []) = record := by
        intro record
        apply List.ext_getElem?
        intro j
        rw [List.getElem?_mapIdx]
        cases record[j]? with
        | none => rfl
        | some v =>
          cases hj : c.headers[j]? <;> simp [mapCell, hj, firstDescriptor]
      simp [hid]
    rw [hheaders, hrows]

/-- C10, on the projection scenario with three descriptors: the column `c`, which no
descriptor names, keeps its header and its cell `3` at position `2`. -/
theorem MapColumns_pass_through_witness :
    (MapColumns scenarioTable scenarioColumns).headers[2]? = some "c" ∧
    ∃ out, (MapColumns scenarioTable scenarioColumns).records[0]? = some out ∧
      out[2]? = some "3" := by
  obtain ⟨h1, h2⟩ := (MapColumns_pass_through scenarioTable scenarioColumns).1 2 "c"
    (by decide) (by decide)
  obtain ⟨out, h3, h4⟩ := h2 0 ["1", "2", "3"] (by decide)
  exact ⟨h1, out, h3, h4.trans (by decide)⟩

/-! ## Shape of the results -/

/-- C11: `MapColumns` returns a table with the same number of rows and the same number of
headers as the input, and each output row has the length of the corresponding input row. -/
theorem MapColumns_shape (c : CSVHelper) (columns : List MapColumn) :
    (MapColumns c columns).records.length = c.records.length ∧
    (MapColumns c columns).headers.length = c.headers.length ∧
    ∀ (k : Nat) (record : List String), c.records[k]? = some record →
      ∃ out, (MapColumns c columns).records[k]? = some out ∧ out.length = record.length := by
  rw [MapColumns_eq]
  refine ⟨by simp, by simp, ?_⟩
  intro k record hk
  exact ⟨record.mapIdx (mapCell c.headers columns), by simp [hk], by simp⟩

theorem joinRow_take (rightRows : List (List String)) (li ri : Nat) (l : List String) :
    (joinRow rightRows li ri l).take l.length = l := by
  unfold joinRow
  cases l[li]? with
  | none => simp
  | some key =>
    dsimp only
    cases lastMatch rightRows ri key with
    | none => simp
    | some rr => simp

/-- C12: when both key columns are found, every table `Join` returns has as many rows as
`left`, in the order of the left rows: its `i`-th row begins with the cells of the `i`-th
left row, matched or not; and `Join` does return a table when every row has a cell at its
key index. -/
theorem Join_row_count (c right : CSVHelper) (leftColumn rightColumn : String)
    (hl : leftColumn ∈ c.headers) (hr : rightColumn ∈ right.headers) :
    (∀ t, Join c right leftColumn rightColumn = some t →
      t.records.length = c.records.length ∧
      ∀ (i : Nat) (l : List String), c.records[i]? = some l →
        ∃ out, t.records[i]? = some out ∧ out.take l.length = l) ∧
    ((∀ r ∈ c.records, c.headers.indexOf leftColumn < r.length) →
      (∀ r ∈ right.records, right.headers.indexOf rightColumn < r.length) →
      ∃ t, Join c right leftColumn rightColumn = some t) := by
  rw [Join_eq, if_pos ⟨hr, hl⟩]
  constructor
  · intro t ht
    by_cases hrows : (∀ r ∈ right.records, right.headers.indexOf rightColumn < r.length) ∧
        (∀ r ∈ c.records, c.headers.indexOf leftColumn < r.length)
    · rw [if_pos hrows] at ht
      rw [← Option.some.inj ht]
      refine ⟨by simp, ?_⟩
      intro i l hi
      exact ⟨joinRow right.records (c.headers.indexOf leftColumn)
        (right.headers.indexOf rightColumn) l, by simp [hi], joinRow_take _ _ _ l⟩
    · rw [if_neg hrows] at ht
      exact absurd ht (by simp)
  · intro hL hR
    rw [if_pos ⟨hR, hL⟩]
    exact ⟨_, rfl⟩

/-- C12, on the join scenario: two left rows, two output rows. -/
theorem Join_row_count_witness :
    ∃ t, Join scenarioLeft scenarioRight "id" "id" = some t ∧ t.records.length = 2 := by
  obtain ⟨h1, h2⟩ :=
    Join_row_count scenarioLeft scenarioRight "id" "id" (by decide) (by decide)
  obtain ⟨t, ht⟩ := h2 (by decide) (by decide)
  exact ⟨t, ht, (h1 t ht).1⟩

/-- C13: when no field name equals any header, `Select` returns a table with an empty
header list and an empty row list, whatever the number of input rows. -/
theorem Select_no_match (c : CSVHelper) (fields : List String)
    (h : ∀ x ∈ c.headers, x ∉ fields) :
    (Select c fields).headers = [] ∧ (Select c fields).records = [] := by
  have hnil : c.headers.filter (fun x => decide (x ∈ fields)) = [] := by
    rw [List.filter_eq_nil_iff]
    intro x hx
    simpa using h x hx
  rw [Select_eq, if_pos hnil]
  exact ⟨rfl, rfl⟩

/-- C13, on the projection scenario with the single field `z`. -/
theorem Select_no_match_witness :
    (Select scenarioTable ["z"]).headers = [] ∧ (Select scenarioTable ["z"]).records = [] :=
  Select_no_match scenarioTable ["z"] (by decide)

/-- C15: `clone` returns a table with the same name, the same headers element by element
and the same rows row by row and cell by cell, for rows of any length. -/
theorem clone_copies (c : CSVHelper) :
    (clone c).Name = c.Name ∧
    (clone c).headers.length = c.headers.length ∧
    (∀ i : Nat, (clone c).headers[i]? = c.headers[i]?) ∧
    (clone c).records.length = c.records.length ∧
    (∀ (k : Nat) (record : List String), c.records[k]? = some record →
      ∃ out, (clone c).records[k]? = some out ∧ out.length = record.length ∧
        ∀ i : Nat, out[i]? = record[i]?) := by
  rw [clone_eq]
  exact ⟨rfl, rfl, fun _ => rfl, rfl, fun k record hk => ⟨record, hk, rfl, fun _ => rfl⟩⟩

/-! ## Failure of the key-cell reads -/

/-- C14, evaluated on the code: the table that `Join` returns on the join scenario has the
unmatched row `2, b`, two cells under four headers; a second `Join` of that table on its
column `score` (position 3) reads the key cell of that row out of range, which is a panic
and not a returned table. -/
theorem Join_panics_on_join_output :
    ∃ joined, Join scenarioLeft scenarioRight "id" "id" = some joined ∧
      joined.records[1]? = some ["2", "b"] ∧
      findIndex "score" 0 joined.headers = 3 ∧
      index ["2", "b"] 3 = none ∧
      Join joined scenarioRight "score" "score" = none := by
  refine ⟨{ Name := "L.R", headers := ["id", "name", "R.id", "score"],
            records := [["1", "a", "1", "10"], ["2", "b"]] }, ?_, ?_, ?_, ?_, ?_⟩ <;> decide

theorem lastMatch_eq_none (rows : List (List String)) (n : Nat) (key : String)
    (h : ∀ r ∈ rows, r[n]? ≠ some key) : lastMatch rows n key = none := by
  unfold lastMatch
  have hnil : rows.filter (fun r => decide (r[n]? = some key)) = [] := by
    rw [List.filter_eq_nil_iff]
    intro r hr
    simpa using h r hr
  rw [hnil]
  rfl

theorem aligned_key_cells (t : CSVHelper) (column : String) (ht : RowsAligned t)
    (hmem : column ∈ t.headers) : ∀ r ∈ t.records, t.headers.indexOf column < r.length := by
  intro r hr
  rw [ht r hr]
  exact List.indexOf_lt_length.mpr hmem

/-- C19: if every row of `left` and every row of `right` has one cell per header of its
table, `Join` completes for every `leftColumn` and `rightColumn`; and whenever both key
columns are found, `leftIndex` is a valid index into every left row and `rightIndex` into
every right row, so that no key-cell read is out of range. -/
theorem Join_completes_on_aligned (c right : CSVHelper) (leftColumn rightColumn : String)
    (hc : RowsAligned c) (hright : RowsAligned right) :
    (∃ t, Join c right leftColumn rightColumn = some t) ∧
    (leftColumn ∈ c.headers → rightColumn ∈ right.headers →
      (∀ r ∈ c.records, ∃ key, index r (findIndex leftColumn 0 c.headers) = some key) ∧
      (∀ r ∈ right.records, ∃ key, index r (findIndex rightColumn 0 right.headers) = some key)) := by
  constructor
  · rw [Join_eq]
    by_cases hfound : rightColumn ∈ right.headers ∧ leftColumn ∈ c.headers
    · rw [if_pos hfound, if_pos ⟨aligned_key_cells right rightColumn hright hfound.1,
        aligned_key_cells c leftColumn hc hfound.2⟩]
      exact ⟨_, rfl⟩
    · rw [if_neg hfound]
      exact ⟨c, rfl⟩
  · intro hl hr
    constructor
    · intro r hrow
      have hlt := aligned_key_cells c leftColumn hc hl r hrow
      refine ⟨r[c.headers.indexOf leftColumn], ?_⟩
      simp only [findIndex_eq, hl, if_true, Nat.zero_add, index_natCast]
      exact List.getElem?_eq_getElem hlt
    · intro r hrow
      have hlt := aligned_key_cells right rightColumn hright hr r hrow
      refine ⟨r[right.headers.indexOf rightColumn], ?_⟩
      simp only [findIndex_eq, hr, if_true, Nat.zero_add, index_natCast]
      exact List.getElem?_eq_getElem hlt

/-- C19, on the join scenario, whose two tables have one cell per header in every row. -/
theorem Join_completes_on_aligned_witness :
    ∃ t, Join scenarioLeft scenarioRight "id" "id" = some t :=
  (Join_completes_on_aligned scenarioLeft scenarioRight "id" "id"
    (by unfold RowsAligned; decide) (by unfold RowsAligned; decide)).1

/-- C20: if both input tables have one cell per header in every row and both key columns
are found, `Join` returns a table with `len(left headers) + len(right headers)` headers; if
moreover the key cell of every left row occurs among the key cells of the right rows, every
row of the result has that length; and an output row whose left key has no match in `right`
has length `len(left headers)`, strictly less than the header count of the result. -/
theorem Join_row_width (c right : CSVHelper) (leftColumn rightColumn : String)
    (hc : RowsAligned c) (hright : RowsAligned right)
    (hl : leftColumn ∈ c.headers) (hr : rightColumn ∈ right.headers) :
    ∃ t, Join c right leftColumn rightColumn = some t ∧
      t.headers.length = c.headers.length + right.headers.length ∧
      ((∀ l ∈ c.records, ∃ r ∈ right.records,
          r[right.headers.indexOf rightColumn]? = l[c.headers.indexOf leftColumn]?) →
        ∀ r ∈ t.records, r.length = t.headers.length) ∧
      (∀ (i : Nat) (l : List String), c.records[i]? = some l →
        (∀ r ∈ right.records,
          r[right.headers.indexOf rightColumn]? ≠ l[c.headers.indexOf leftColumn]?) →
        ∃ out, t.records[i]? = some out ∧ out.length = c.headers.length ∧
          out.length < t.headers.length) := by
  have hL := aligned_key_cells c leftColumn hc hl
  have hR := aligned_key_cells right rightColumn hright hr
  rw [Join_eq, if_pos ⟨hr, hl⟩, if_pos ⟨hR, hL⟩]
  refine ⟨_, rfl, by simp, ?_, ?_⟩
  · intro hmatch r hrow
    obtain ⟨l, hlrow, rfl⟩ := List.mem_map.mp hrow
    obtain ⟨r1, hr1, hkey⟩ := hmatch l hlrow
    obtain ⟨key, hg⟩ : ∃ key, l[c.headers.indexOf leftColumn]? = some key :=
      ⟨_, List.getElem?_eq_getElem (hL l hlrow)⟩
    rw [hg] at hkey
    have hne := lastMatch_ne_none right.records _ _ r1 hr1 hkey
    cases hlast : lastMatch right.records (right.headers.indexOf rightColumn) key with
    | none => exact absurd hlast hne
    | some rr =>
      have hrr := (lastMatch_mem _ _ _ rr hlast).1
      simp only [joinRow, hg, hlast, List.length_append, List.length_map, hc l hlrow,
        hright rr hrr]
  · intro i l hi hno
    have hlrow : l ∈ c.records := List.getElem?_mem hi
    obtain ⟨key, hg⟩ : ∃ key, l[c.headers.indexOf leftColumn]? = some key :=
      ⟨_, List.getElem?_eq_getElem (hL l hlrow)⟩
    have hnone : lastMatch right.records (right.headers.indexOf rightColumn) key = none := by
      apply lastMatch_eq_none
      intro r hrow
      rw [← hg]
      exact hno r hrow
    have hpos : 0 < right.headers.length := List.length_pos_of_mem hr
    refine ⟨l, by simp [hi, joinRow, hg, hnone], hc l hlrow, ?_⟩
    simp only [List.length_append, List.length_map, hc l hlrow]
    omega

/-- C20, on the join scenario: four headers, and the row of the unmatched key `2` has the
two cells of the left row. -/
theorem Join_row_width_witness :
    ∃ t, Join scenarioLeft scenarioRight "id" "id" = some t ∧ t.headers.length = 4 ∧
      ∃ out, t.records[1]? = some out ∧ out.length = 2 ∧ out.length < t.headers.length := by
  obtain ⟨t, ht, hlen, _, hshort⟩ :=
    Join_row_width scenarioLeft scenarioRight "id" "id"
      (by unfold RowsAligned; decide) (by unfold RowsAligned; decide) (by decide) (by decide)
  exact ⟨t, ht, hlen, hshort 1 ["2", "b"] (by decide) (by decide)⟩

/-! ## Round trip through the file -/

theorem normalizeLineEnds_of_no_CRLF (l : List Char) (h : hasCRLF l = false) :
    normalizeLineEnds l = l := by
  induction l with
  | nil => rfl
  | cons ch rest ih =>
    simp only [hasCRLF, Bool.or_eq_false_iff, Bool.and_eq_false_iff, decide_eq_false_iff_not] at h
    have hnot : ¬ (ch = carriageReturn ∧ rest.head? = some lineFeed) := by
      intro hboth
      rcases h.1 with h1 | h1
      · exact h1 hboth.1
      · exact h1 hboth.2
    simp only [normalizeLineEnds, if_neg hnot, ih h.2]

theorem readField_of_no_CRLF (cell : String) (h : hasCRLF cell.data = false) :
    readField cell = cell := by
  unfold readField
  rw [normalizeLineEnds_of_no_CRLF cell.data h]

theorem checkFieldCount_ok (n : Nat) (records : List (List String))
    (h : ∀ record ∈ records, record.length = n) :
    checkFieldCount n records = Except.ok records := by
  induction records with
  | nil => rfl
  | cons record rest ih =>
    have h1 : record.length = n := h record (List.mem_cons_self _ _)
    simp only [checkFieldCount, h1, if_true,
      ih (fun r hr => h r (List.mem_cons_of_mem _ hr))]

/-- C18 as stated fails. A table with headers and no data row is written as one record,
which `init` rejects. The same holds inside "non-empty headers" for tables with rows: the
table the join scenario returns, whose second row is shorter than the headers, is rejected
by the reader; a row of one empty cell is written as an empty line and lost; and a cell
with a line end `\r\n` comes back with `\n`. -/
theorem roundtrip_fails :
    init (newCSV "T") (readWritten (ToOutput { Name := "T", headers := ["a"], records := [] })) =
      Except.error Error.errEmptyRecords ∧
    init (newCSV "L.R") (readWritten (ToOutput
        { Name := "L.R", headers := ["id", "name", "R.id", "score"],
          records := [["1", "a", "1", "10"], ["2", "b"]] })) =
      Except.error Error.errFieldCount ∧
    init (newCSV "T") (readWritten (ToOutput
        { Name := "T", headers := ["a"], records := [[""], ["x"]] })) =
      Except.ok { Name := "T", headers := ["a"], records := [["x"]] } ∧
    init (newCSV "T") (readWritten (ToOutput
        { Name := "T", headers := ["a"], records := [["x\r\ny"]] })) =
      Except.ok { Name := "T", headers := ["a"], records := [["x\ny"]] } := by
  refine ⟨?_, ?_, ?_, ?_⟩ <;> rfl

/-- C18, amended: for every table with non-empty headers, at least one data row, one cell
per header in every row, no record (headers or row) that is a single empty cell, and no
cell with a line end `\r\n` in it, the file written by `ToOutput`, read again by `init`, is
accepted and gives back the headers and the rows of the table exactly. -/
theorem roundtrip (c : CSVHelper) (name : String)
    (hh : c.headers ≠ []) (hrows : c.records ≠ []) (haligned : RowsAligned c)
    (hline : ∀ record ∈ c.headers :: c.records, record ≠ [""])
    (hcrlf : ∀ record ∈ c.headers :: c.records, ∀ cell ∈ record, hasCRLF cell.data = false) :
    ∃ t, init (newCSV name) (readWritten (ToOutput c)) = Except.ok t ∧
      t.headers = c.headers ∧ t.records = c.records := by
  have hout : ToOutput c = c.headers :: c.records := by simp [ToOutput]
  have hne : ∀ record ∈ c.headers :: c.records, record ≠ [] := by
    intro record hmem
    rcases List.mem_cons.mp hmem with e | e
    · rw [e]; exact hh
    · intro hnil
      have hlen := haligned record e
      rw [hnil] at hlen
      exact hh (List.eq_nil_of_length_eq_zero hlen.symm)
  have hfilter : (c.headers :: c.records).filter (fun record => !writtenAsEmptyLine record) =
      c.headers :: c.records := by
    rw [List.filter_eq_self]
    intro record hmem
    simp [writtenAsEmptyLine, hne record hmem, hline record hmem]
  have hmap : (c.headers :: c.records).map (fun record => record.map readField) =
      c.headers :: c.records := by
    have hid : ∀ record ∈ c.headers :: c.records, record.map readField = record := by
      intro record hmem
      have hcells : ∀ cell ∈ record, readField cell = cell :=
        fun cell hcell => readField_of_no_CRLF cell (hcrlf record hmem cell hcell)
      calc record.map readField = record.map id := List.map_congr_left hcells
        _ = record := List.map_id record
    calc (c.headers :: c.records).map (fun record => record.map readField)
        = (c.headers :: c.records).map id := List.map_congr_left hid
      _ = c.headers :: c.records := List.map_id _
  have hcount : checkFieldCount c.headers.length (c.headers :: c.records) =
      Except.ok (c.headers :: c.records) := by
    apply checkFieldCount_ok
    intro record hmem
    rcases List.mem_cons.mp hmem with e | e
    · rw [e]
    · exact haligned record e
  have hread : readWritten (ToOutput c) = Except.ok (c.headers :: c.records) := by
    unfold readWritten
    rw [hout, hfilter, hmap]
    exact hcount
  cases hrec : c.records with
  | nil => exact absurd hrec hrows
  | cons r rs =>
    refine ⟨{ Name := name, headers := c.headers, records := r :: rs }, ?_, rfl, rfl⟩
    rw [hread, hrec]
    simp [init, newCSV]

/-- C18, amended, on the join scenario's left table. -/
theorem roundtrip_witness :
    ∃ t, init (newCSV "L") (readWritten (ToOutput scenarioLeft)) = Except.ok t ∧
      t.headers = scenarioLeft.headers ∧ t.records = scenarioLeft.records :=
  roundtrip scenarioLeft "L" (by decide) (by decide) (by unfold RowsAligned; decide)
    (by decide) (by decide)

/-! ## Memory: what allocation, copy and append leave untouched -/

theorem SameBelow_refl (h : Heap) : SameBelow h.arrays.length h h :=
  ⟨Nat.le_refl _, fun _ _ => rfl⟩

theorem read_of_SameBelow (n0 : Nat) (h h1 : Heap) (s : Slice) (hs : SameBelow n0 h h1)
    (hp : s.ptr < n0) : h1.read s = h.read s := by
  unfold Heap.read
  rw [List.getD_eq_getElem?_getD, List.getD_eq_getElem?_getD, hs.2 s.ptr hp]

theorem view_of_SameBelow (n0 : Nat) (h h1 : Heap) (t : CSVHelperMem)
    (hs : SameBelow n0 h h1) (ht : HeldBelow n0 t) : view h1 t = view h t := by
  unfold view
  rw [read_of_SameBelow n0 h h1 t.headers hs ht.1]
  have hrows : t.records.map h1.read = t.records.map h.read := by
    apply List.map_congr_left
    intro s hmem
    exact read_of_SameBelow n0 h h1 s hs (ht.2 s hmem)
  rw [hrows]

theorem store_SameBelow (n0 : Nat) (h0 h : Heap) (ptr off : Nat) (xs : List String)
    (hs : SameBelow n0 h0 h) (hp : n0 ≤ ptr) : SameBelow n0 h0 (h.store ptr off xs) := by
  refine ⟨by simpa [Heap.store] using hs.1, fun a ha => ?_⟩
  have hne : ptr ≠ a := by omega
  simp only [Heap.store, List.getElem?_set_ne hne]
  exact hs.2 a ha

theorem store_nil_SameBelow (n0 : Nat) (h0 h : Heap) (ptr off : Nat)
    (hs : SameBelow n0 h0 h) : SameBelow n0 h0 (h.store ptr off []) := by
  refine ⟨by simpa [Heap.store] using hs.1, fun a ha => ?_⟩
  rw [← hs.2 a ha]
  simp only [Heap.store, List.append_nil, List.length_nil, Nat.add_zero, List.take_append_drop,
    List.getElem?_set]
  by_cases hpa : ptr = a
  · subst hpa
    by_cases hlt : ptr < h.arrays.length
    · simp [hlt, List.getD_eq_getElem?_getD, List.getElem?_eq_getElem hlt]
    · have hnone : h.arrays[ptr]? = none := List.getElem?_eq_none (by omega)
      simp [hlt, hnone]
  · simp [hpa]

theorem alloc_SameBelow (n0 : Nat) (h0 h : Heap) (cells : List String)
    (hs : SameBelow n0 h0 h) :
    SameBelow n0 h0 (h.alloc cells).1 ∧ FreshFrom n0 (h.alloc cells).2 ∧
      (h.alloc cells).2.len = cells.length := by
  unfold Heap.alloc
  by_cases hc : cells.length = 0
  · rw [if_pos hc]
    exact ⟨hs, Or.inl ⟨rfl, rfl⟩, by simp [Slice.nil, hc]⟩
  · rw [if_neg hc]
    refine ⟨⟨?_, fun a ha => ?_⟩, Or.inr hs.1, rfl⟩
    · simp only [List.length_append, List.length_singleton]
      have := hs.1
      omega
    · have hlt : a < h.arrays.length := Nat.lt_of_lt_of_le ha hs.1
      simp only [List.getElem?_append_left hlt]
      exact hs.2 a ha

theorem copySlice_SameBelow (n0 : Nat) (h0 h : Heap) (dst src : Slice)
    (hs : SameBelow n0 h0 h) (hd : FreshFrom n0 dst) :
    SameBelow n0 h0 (copySlice h dst src) := by
  unfold copySlice
  rcases hd with hd | hd
  · rw [hd.1, List.take_zero]
    exact store_nil_SameBelow n0 h0 h _ _ hs
  · exact store_SameBelow n0 h0 h _ _ _ hs hd

theorem appendSlice_SameBelow (grow : Nat → Nat → Nat) (n0 : Nat) (h0 h : Heap) (s : Slice)
    (xs : List String) (hs : SameBelow n0 h0 h) (hf : FreshFrom n0 s) :
    SameBelow n0 h0 (appendSlice grow h s xs).1 ∧ FreshFrom n0 (appendSlice grow h s xs).2 := by
  unfold appendSlice
  by_cases hfit : s.len + xs.length ≤ s.cap
  · rw [if_pos hfit]
    rcases hf with hf | hf
    · have hx : xs = [] := List.eq_nil_of_length_eq_zero (by omega)
      subst hx
      exact ⟨store_nil_SameBelow n0 h0 h _ _ hs, Or.inl ⟨by simp [hf.1], hf.2⟩⟩
    · exact ⟨store_SameBelow n0 h0 h _ _ _ hs hf, Or.inr hf⟩
  · rw [if_neg hfit]
    refine ⟨⟨?_, fun a ha => ?_⟩, Or.inr hs.1⟩
    · simp only [List.length_append, List.length_singleton]
      have := hs.1
      omega
    · have hlt : a < h.arrays.length := Nat.lt_of_lt_of_le ha hs.1
      simp only [List.getElem?_append_left hlt]
      exact hs.2 a ha

/-! ## Select in memory writes to new arrays only -/

theorem selectInnerMem_frame (grow : Nat → Nat → Nat) (n0 : Nat) (h0 : Heap) (index : Nat)
    (header : String) (fields : List String) (st : Heap × GoMap Nat Bool × Slice)
    (hs : SameBelow n0 h0 st.1) (hf : FreshFrom n0 st.2.2) :
    SameBelow n0 h0 (selectInnerMem grow index header fields st).1 ∧
      FreshFrom n0 (selectInnerMem grow index header fields st).2.2 := by
  induction fields with
  | nil => exact ⟨hs, hf⟩
  | cons field rest ih =>
    unfold selectInnerMem
    by_cases he : header = field
    · rw [if_pos he]
      exact appendSlice_SameBelow grow n0 h0 st.1 st.2.2 [header] hs hf
    · rw [if_neg he]
      exact ih

theorem selectHeadersMem_frame (grow : Nat → Nat → Nat) (n0 : Nat) (h0 : Heap)
    (fields : List String) (headers : Slice) (n : Nat) :
    ∀ (index : Nat) (st : Heap × GoMap Nat Bool × Slice),
      SameBelow n0 h0 st.1 → FreshFrom n0 st.2.2 →
      SameBelow n0 h0 (selectHeadersMem grow fields headers n index st).1 ∧
        FreshFrom n0 (selectHeadersMem grow fields headers n index st).2.2 := by
  induction n with
  | zero => intro index st hs hf; exact ⟨hs, hf⟩
  | succ n ih =>
    intro index st hs hf
    unfold selectHeadersMem
    cases (st.1.read headers)[index]? with
    | none => exact ⟨hs, hf⟩
    | some header =>
      obtain ⟨h1, h2⟩ := selectInnerMem_frame grow n0 h0 index header fields st hs hf
      exact ih (index + 1) _ h1 h2

theorem selectRecordMem_frame (grow : Nat → Nat → Nat) (n0 : Nat) (h0 : Heap)
    (fieldIndexMap : GoMap Nat Bool) (record : Slice) (n : Nat) :
    ∀ (i : Nat) (st : Heap × Slice),
      SameBelow n0 h0 st.1 → FreshFrom n0 st.2 →
      SameBelow n0 h0 (selectRecordMem grow fieldIndexMap record n i st).1 ∧
        FreshFrom n0 (selectRecordMem grow fieldIndexMap record n i st).2 := by
  induction n with
  | zero => intro i st hs hf; exact ⟨hs, hf⟩
  | succ n ih =>
    intro i st hs hf
    unfold selectRecordMem
    cases (st.1.read record)[i]? with
    | none => exact ⟨hs, hf⟩
    | some v =>
      dsimp only
      by_cases hm : (fieldIndexMap.get? i).isSome = true
      · rw [if_pos hm]
        obtain ⟨h1, h2⟩ := appendSlice_SameBelow grow n0 h0 st.1 st.2 [v] hs hf
        exact ih (i + 1) _ h1 h2
      · rw [if_neg hm]
        exact ih (i + 1) st hs hf

theorem selectRecordsMem_frame (grow : Nat → Nat → Nat) (n0 : Nat) (h0 : Heap)
    (fieldIndexMap : GoMap Nat Bool) (records : List Slice) :
    ∀ st : Heap × List Slice,
      SameBelow n0 h0 st.1 → (∀ s ∈ st.2, FreshFrom n0 s) →
      SameBelow n0 h0 (selectRecordsMem grow fieldIndexMap records st).1 ∧
        ∀ s ∈ (selectRecordsMem grow fieldIndexMap records st).2, FreshFrom n0 s := by
  induction records with
  | nil => intro st hs hf; exact ⟨hs, hf⟩
  | cons record rest ih =>
    intro st hs hf
    unfold selectRecordsMem
    obtain ⟨h1, h2⟩ := selectRecordMem_frame grow n0 h0 fieldIndexMap record record.len 0
      (st.1, Slice.nil) hs (Or.inl ⟨rfl, rfl⟩)
    apply ih _ h1
    intro s hmem
    rcases List.mem_append.mp hmem with hmem | hmem
    · exact hf s hmem
    · rw [List.mem_singleton.mp hmem]
      exact h2

/-- `Select` in memory leaves every array that existed before the call as it was, over its
whole capacity, and the headers and rows of the table it returns hold no cell of those
arrays. -/
theorem SelectMem_frame (grow : Nat → Nat → Nat) (h : Heap) (c : CSVHelperMem)
    (fields : List String) :
    SameBelow h.arrays.length h (SelectMem grow h c fields).1 ∧
      FreshFrom h.arrays.length (SelectMem grow h c fields).2.headers ∧
      ∀ s ∈ (SelectMem grow h c fields).2.records, FreshFrom h.arrays.length s := by
  obtain ⟨h1, h2⟩ := selectHeadersMem_frame grow h.arrays.length h fields c.headers
    c.headers.len 0 (h, GoMap.empty, Slice.nil) (SameBelow_refl h) (Or.inl ⟨rfl, rfl⟩)
  unfold SelectMem
  dsimp only
  split
  · exact ⟨h1, h2, fun s hmem => absurd hmem (List.not_mem_nil s)⟩
  · obtain ⟨h3, h4⟩ := selectRecordsMem_frame grow h.arrays.length h _ c.records
      (_, []) h1 (fun s hmem => absurd hmem (List.not_mem_nil s))
    exact ⟨h3, h2, h4⟩

/-- A table held in memory before a call of `Select` reads the same after the call. -/
theorem SelectMem_keeps_held_tables (grow : Nat → Nat → Nat) (h : Heap) (c : CSVHelperMem)
    (fields : List String) (t : CSVHelperMem) (ht : HeldBelow h.arrays.length t) :
    view (SelectMem grow h c fields).1 t = view h t :=
  view_of_SameBelow _ _ _ t (SelectMem_frame grow h c fields).1 ht

/-! ## clone and MapColumns in memory write to new arrays only -/

theorem cloneRecordsMem_frame (n0 : Nat) (h0 : Heap) (records : List Slice) :
    ∀ st : Heap × List Slice,
      SameBelow n0 h0 st.1 → (∀ s ∈ st.2, FreshFrom n0 s) →
      SameBelow n0 h0 (cloneRecordsMem records st).1 ∧
        ∀ s ∈ (cloneRecordsMem records st).2, FreshFrom n0 s := by
  induction records with
  | nil => intro st hs hf; exact ⟨hs, hf⟩
  | cons v rest ih =>
    intro st hs hf
    unfold cloneRecordsMem
    obtain ⟨h1, h2, _⟩ := alloc_SameBelow n0 h0 st.1 (List.replicate v.len "") hs
    apply ih _ (copySlice_SameBelow n0 h0 _ _ v h1 h2)
    intro s hmem
    rcases List.mem_append.mp hmem with hmem | hmem
    · exact hf s hmem
    · rw [List.mem_singleton.mp hmem]
      exact h2

/-- `clone` in memory leaves every existing array as it was, and the copy holds no cell of
an existing array: its storage is its own at every level. -/
theorem cloneMem_frame (h : Heap) (c : CSVHelperMem) :
    SameBelow h.arrays.length h (cloneMem h c).1 ∧
      FreshFrom h.arrays.length (cloneMem h c).2.headers ∧
      ∀ s ∈ (cloneMem h c).2.records, FreshFrom h.arrays.length s := by
  obtain ⟨h1, h2, _⟩ := alloc_SameBelow h.arrays.length h h
    (List.replicate c.headers.len "") (SameBelow_refl h)
  obtain ⟨h3, h4⟩ := cloneRecordsMem_frame h.arrays.length h c.records
    (copySlice (makeSlice h c.headers.len).1 (makeSlice h c.headers.len).2 c.headers, [])
    (copySlice_SameBelow _ _ _ _ c.headers h1 h2)
    (fun s hmem => absurd hmem (List.not_mem_nil s))
  exact ⟨h3, h2, h4⟩

theorem read_some_len_pos (h : Heap) (s : Slice) (i : Nat) (v : String)
    (hv : (h.read s)[i]? = some v) : s.len ≠ 0 := by
  intro hz
  unfold Heap.read at hv
  rw [hz, List.take_zero] at hv
  simp at hv

theorem mapHeaderInnerMem_frame (n0 : Nat) (h0 : Heap) (headers : Slice) (i : Nat)
    (v : String) (columns : List MapColumn) (st : Heap × GoMap Nat MapColumn)
    (hs : SameBelow n0 h0 st.1) (hp : n0 ≤ headers.ptr) :
    SameBelow n0 h0 (mapHeaderInnerMem headers i v columns st).1 := by
  induction columns with
  | nil => exact hs
  | cons column rest ih =>
    unfold mapHeaderInnerMem
    by_cases he : v = column.Src
    · rw [if_pos he]
      exact store_SameBelow n0 h0 st.1 _ _ _ hs hp
    · rw [if_neg he]
      exact ih

theorem mapHeadersMem_frame (n0 : Nat) (h0 : Heap) (columns : List MapColumn)
    (headers : Slice) (hf : FreshFrom n0 headers) (n : Nat) :
    ∀ (i : Nat) (st : Heap × GoMap Nat MapColumn),
      SameBelow n0 h0 st.1 → SameBelow n0 h0 (mapHeadersMem columns headers n i st).1 := by
  induction n with
  | zero => intro i st hs; exact hs
  | succ n ih =>
    intro i st hs
    unfold mapHeadersMem
    cases hv : (st.1.read headers)[i]? with
    | none => exact hs
    | some v =>
      have hlen := read_some_len_pos st.1 headers i v hv
      have hp : n0 ≤ headers.ptr := by
        rcases hf with hf | hf
        · exact absurd hf.1 hlen
        · exact hf
      exact ih (i + 1) _ (mapHeaderInnerMem_frame n0 h0 headers i v columns st hs hp)

theorem mapRecordMem_frame (n0 : Nat) (h0 : Heap) (colIndexMap : GoMap Nat MapColumn)
    (record : Slice) (hf : FreshFrom n0 record) (n : Nat) :
    ∀ (i : Nat) (h : Heap),
      SameBelow n0 h0 h → SameBelow n0 h0 (mapRecordMem colIndexMap record n i h) := by
  induction n with
  | zero => intro i h hs; exact hs
  | succ n ih =>
    intro i h hs
    unfold mapRecordMem
    cases hv : (h.read record)[i]? with
    | none => exact hs
    | some v =>
      have hlen := read_some_len_pos h record i v hv
      have hp : n0 ≤ record.ptr := by
        rcases hf with hf | hf
        · exact absurd hf.1 hlen
        · exact hf
      dsimp only
      cases colIndexMap.get? i with
      | none => exact ih (i + 1) h hs
      | some column => exact ih (i + 1) _ (store_SameBelow n0 h0 h _ _ _ hs hp)

theorem mapRecordsMem_frame (n0 : Nat) (h0 : Heap) (colIndexMap : GoMap Nat MapColumn)
    (records : List Slice) :
    ∀ h : Heap, (∀ s ∈ records, FreshFrom n0 s) → SameBelow n0 h0 h →
      SameBelow n0 h0 (mapRecordsMem colIndexMap records h) := by
  induction records with
  | nil => intro h _ hs; exact hs
  | cons record rest ih =>
    intro h hf hs
    unfold mapRecordsMem
    exact ih _ (fun s hmem => hf s (List.mem_cons_of_mem _ hmem))
      (mapRecordMem_frame n0 h0 colIndexMap record (hf record (List.mem_cons_self _ _))
        record.len 0 h hs)

/-- `MapColumns` in memory, which renames headers and rewrites cells in place on its
working copy, leaves every array that existed before the call as it was, and the table it
returns holds no cell of those arrays. -/
theorem MapColumnsMem_frame (h : Heap) (c : CSVHelperMem) (columns : List MapColumn) :
    SameBelow h.arrays.length h (MapColumnsMem h c columns).1 ∧
      FreshFrom h.arrays.length (MapColumnsMem h c columns).2.headers ∧
      ∀ s ∈ (MapColumnsMem h c columns).2.records, FreshFrom h.arrays.length s := by
  obtain ⟨h1, h2, h3⟩ := cloneMem_frame h c
  unfold MapColumnsMem
  dsimp only
  refine ⟨?_, h2, h3⟩
  apply mapRecordsMem_frame _ _ _ _ _ h3
  exact mapHeadersMem_frame _ _ columns _ h2 _ 0 _ h1

/-- A table held in memory before a call of `MapColumns` reads the same after the call. -/
theorem MapColumnsMem_keeps_held_tables (h : Heap) (c : CSVHelperMem)
    (columns : List MapColumn) (t : CSVHelperMem) (ht : HeldBelow h.arrays.length t) :
    view (MapColumnsMem h c columns).1 t = view h t :=
  view_of_SameBelow _ _ _ t (MapColumnsMem_frame h c columns).1 ht

/-! ## Storage shared between tables -/

/-- C16, evaluated on the code in memory, with the capacities of the gc runtime before and
from Go 1.22: in `J.Join(J2, "a", "a")`, where `J := X.Join(P, "a", "z")` for a table `X`
of 25 columns and `J2 := J.Join(Q, "b", "zz")`, the headers and the row of the right-hand
argument `J2` lie in the arrays of the receiver `J` (26 cells used, capacity at least 55),
the 27 appended cells fit in place, and after the call the header `zz` of `J2` reads
`X.P.Q.a` and its last cell `2` reads `1`. -/
theorem Join_overwrites_right_argument :
    (wideTrace 0).map (fun s =>
        (s.receiver.headers, s.right.headers,
         (s.before.read s.right.headers)[26]?, (s.after.read s.right.headers)[26]?)) =
      some ({ ptr := 8, len := 26, cap := 56 }, { ptr := 8, len := 27, cap := 56 },
            some "zz", some "X.P.Q.a") ∧
    (wideTrace 0).map (fun s =>
        (s.receiver.records, s.right.records,
         s.right.records.map (fun r => (s.before.read r)[26]?),
         s.right.records.map (fun r => (s.after.read r)[26]?))) =
      some ([{ ptr := 9, len := 26, cap := 56 }], [{ ptr := 9, len := 27, cap := 56 }],
            [some "2"], [some "1"]) ∧
    (wideTrace 8).map (fun s =>
        (s.receiver.headers, s.right.headers,
         (s.before.read s.right.headers)[26]?, (s.after.read s.right.headers)[26]?)) =
      some ({ ptr := 8, len := 26, cap := 55 }, { ptr := 8, len := 27, cap := 55 },
            some "zz", some "X.P.Q.a") ∧
    (wideTrace 8).map (fun s =>
        (s.receiver.records, s.right.records,
         s.right.records.map (fun r => (s.before.read r)[26]?),
         s.right.records.map (fun r => (s.after.read r)[26]?))) =
      some ([{ ptr := 9, len := 26, cap := 55 }], [{ ptr := 9, len := 27, cap := 55 }],
            [some "2"], [some "1"]) := by
  refine ⟨?_, ?_, ?_, ?_⟩ <;> decide

/-- C17, evaluated on the code in memory. With `S := T.Select([a, b, c])`, whose slices
`append` grew to capacity 4, `J1 := S.Join(R1, "a", "x")` has its headers and its row in the
arrays of `S`; it holds `a, b, c, x` and `1, 2, 3, 1` when it is returned, and `a, b, c, y`
and `1, 2, 3, 2` once `S.Join(R2, "b", "y")` has returned. On the join scenario, the join
with an absent key column returns the receiver itself, and the rows of a join in which no
key matches are the row slices of the receiver. -/
theorem Join_shares_storage :
    (twoJoinsTrace 8).map (fun s => (s.receiver, s.right)) =
      some ({ Name := "T", headers := { ptr := 9, len := 3, cap := 4 },
              records := [{ ptr := 12, len := 3, cap := 4 }] },
            { Name := "T.R1", headers := { ptr := 9, len := 4, cap := 4 },
              records := [{ ptr := 12, len := 4, cap := 4 }] }) ∧
    (twoJoinsTrace 8).map (fun s => (view s.before s.right, view s.after s.right)) =
      some ({ Name := "T.R1", headers := ["a", "b", "c", "x"],
              records := [["1", "2", "3", "1"]] },
            { Name := "T.R1", headers := ["a", "b", "c", "y"],
              records := [["1", "2", "3", "2"]] }) ∧
    sharedRowsTrace 8 =
      some ({ Name := "L", headers := { ptr := 1, len := 2, cap := 2 },
              records := [{ ptr := 2, len := 2, cap := 2 }, { ptr := 3, len := 2, cap := 2 }] },
            { Name := "L", headers := { ptr := 1, len := 2, cap := 2 },
              records := [{ ptr := 2, len := 2, cap := 2 }, { ptr := 3, len := 2, cap := 2 }] },
            { Name := "L.R", headers := { ptr := 8, len := 4, cap := 4 },
              records := [{ ptr := 2, len := 2, cap := 2 }, { ptr := 3, len := 2, cap := 2 }] }) := by
  refine ⟨?_, ?_, ?_⟩ <;> decide

/-- C1, evaluated on the code in memory, with the capacities of the gc runtime before and
from Go 1.22. In `J.Join(J2, "a", "b")` of `repeatedKeyTrace` both key columns are found,
at positions 0 and 1, every row has its key cell, and both left rows have the key `1` of
the first right row, whose last cells are `25, 1, Q1`: the claim gives both output rows
these last cells. The code returns them for the first row only; the `append` for the first
left row writes into the array in which that right row lies, and the second output row ends
in `25, 1, 1`. -/
theorem Join_appends_overwritten_right_row :
    (repeatedKeyTrace 8).map (fun s =>
        (findIndex "a" 0 (view s.before s.receiver).headers,
         findIndex "b" 0 (view s.before s.right).headers)) = some ((0 : Int), (1 : Int)) ∧
    (repeatedKeyTrace 8).map (fun s =>
        (view s.before s.receiver).records.map (fun r => r.take 2)) =
      some [["1", "1"], ["1", "2"]] ∧
    (repeatedKeyTrace 8).map (fun s =>
        (view s.before s.right).records.map (fun r => r.take 2 ++ r.drop 24)) =
      some [["1", "1", "25", "1", "Q1"], ["1", "2", "25", "1", "Q1"]] ∧
    (repeatedKeyTrace 8).map (fun s =>
        ((view s.before s.receiver).records.map
          (joinRow (view s.before s.right).records 0 1)).map (fun r => r.drop 50)) =
      some [["25", "1", "Q1"], ["25", "1", "Q1"]] ∧
    (repeatedKeyTrace 8).map (fun s =>
        (view s.after s.result).records.map (fun r => r.drop 50)) =
      some [["25", "1", "Q1"], ["25", "1", "1"]] ∧
    (repeatedKeyTrace 0).map (fun s =>
        ((view s.before s.receiver).records.map
          (joinRow (view s.before s.right).records 0 1)).map (fun r => r.drop 50)) =
      some [["25", "1", "Q1"], ["25", "1", "Q1"]] ∧
    (repeatedKeyTrace 0).map (fun s =>
        (view s.after s.result).records.map (fun r => r.drop 50)) =
      some [["25", "1", "Q1"], ["25", "1", "1"]] := by
  refine ⟨?_, ?_, ?_, ?_, ?_, ?_, ?_⟩ <;> decide

/-- On the same call the table the code returns and the table `Join` gives for the values
of the two arguments have the same headers, the same number of rows, the same row lengths
and the same left rows at the start of the rows; they differ in the appended cells only. -/
theorem Join_shape_on_repeatedKeyTrace :
    (repeatedKeyTrace 8).map (fun s =>
        (Join (view s.before s.receiver) (view s.before s.right) "a" "b").map (fun t =>
          (decide (t.headers = (view s.after s.result).headers),
           decide (t.records.map (fun r => (r.length, r.take 26)) =
             (view s.after s.result).records.map (fun r => (r.length, r.take 26))),
           decide (t.records = (view s.after s.result).records)))) =
      some (some (true, true, false)) := by
  decide

end csv
